import Mathlib

/-!
Verification of the `etl` dataframe core: a shallow embedding of the typed
columnar store (`src/dataframe/datastore.rs`), the 5×5 type-conversion matrix
(`src/dataframe/convert.rs`), the filter evaluator and transform configuration
(`src/dataframe/config.rs`), and the transform methods
(`src/dataframe/transform.rs`).

Modelling conventions:
- Rust `u64` is `Nat` (values kept below `2^64` where it matters),
  `i64` is `Int`, `String` is `String`, `bool` is `Bool`.
- Rust `f64` is modelled as `ℚ` (exact rational arithmetic; binary rounding,
  infinities and NaN are outside the model — theorems about float columns
  carry hypotheses excluding the degenerate cases where f64 would produce
  NaN, such as an empty column or a zero range).
- `HashMap<String, Vec<T>>` is an association list `List (String × List T)`;
  every store operation used here (contains / get / insert / push) is
  insertion-order insensitive, as is the homogeneity check.
- A Rust panic (`unwrap` on `None`/`Err`, failed `assert!`) is modelled by
  `Option`/`Except` results where `none`/`error` means the surrounding Rust
  code does not return normally.
-/

namespace Etl

/-! ## Decimal parsing and formatting

Models of Rust `str::parse` for the primitive types (`convert.rs` and
`config.rs` call these through `FromStr`), and of decimal `format!("{}", _)`.
-/

/-- Is `c` an ASCII decimal digit (models `char::is_ascii_digit` as used by
Rust integer parsing). -/
def isDigitChar (c : Char) : Bool :=
  48 ≤ c.toNat && c.toNat ≤ 57

/-- Value of an ASCII digit character, `none` for non-digits. -/
def charDigit (c : Char) : Option Nat :=
  if isDigitChar c then some (c.toNat - 48) else none

/-- Accumulating decimal evaluation of a big-endian digit string; fails on the
first non-digit character (models the digit loop of `from_str_radix`). -/
def parseDigitsAux : List Char → Nat → Option Nat
  | [], acc => some acc
  | c :: cs, acc =>
    match charDigit c with
    | none => none
    | some d => parseDigitsAux cs (acc * 10 + d)

/-- Decimal value of a non-empty all-digit character list. -/
def parseDigits : List Char → Option Nat
  | [] => none
  | c :: cs => parseDigitsAux (c :: cs) 0

/-- Strip one leading `+` sign (the only sign Rust accepts for unsigned
integer parsing). -/
def stripPlus : List Char → List Char
  | '+' :: rest => rest
  | cs => cs

/-- Strip one leading sign for signed integer parsing; the flag records a
leading `-`. -/
def stripSign : List Char → Bool × List Char
  | '+' :: rest => (false, rest)
  | '-' :: rest => (true, rest)
  | cs => (false, cs)

/-- Models `<u64 as FromStr>::from_str`: optional leading `+` (a `-` sign is
rejected for unsigned types), one or more decimal digits, value below `2^64`
(overflow is a parse error). -/
def parseU64 (s : String) : Option Nat :=
  match parseDigits (stripPlus s.data) with
  | none => none
  | some n => if n < 2 ^ 64 then some n else none

/-- Models `<i64 as FromStr>::from_str`: optional sign, decimal digits, value
within `[-2^63, 2^63)`. -/
def parseI64 (s : String) : Option Int :=
  let (neg, cs) := stripSign s.data
  match parseDigits cs with
  | none => none
  | some n =>
    if neg then
      if (n : Int) ≤ 2 ^ 63 then some (-(n : Int)) else none
    else
      if n < 2 ^ 63 then some (n : Int) else none

/-- Models `<bool as FromStr>::from_str`: exactly `true` or `false`. -/
def parseBool (s : String) : Option Bool :=
  if s = "true" then some true
  else if s = "false" then some false
  else none

/-- Models `<f64 as FromStr>::from_str` on the plain decimal fragment
(optional sign, integer digits, optional fractional digits; at least one digit
overall), producing the exact rational value. Exponent forms and `inf`/`NaN`
are outside the model; no claim depends on them. -/
def parseF64 (s : String) : Option ℚ :=
  let (sgn, cs) : ℚ × List Char := match s.data with
    | '+' :: rest => (1, rest)
    | '-' :: rest => (-1, rest)
    | cs => (1, cs)
  let ip := cs.takeWhile isDigitChar
  let rest := cs.drop ip.length
  match rest with
  | [] =>
    match parseDigits ip with
    | none => none
    | some n => some (sgn * (n : ℚ))
  | '.' :: frac =>
    if frac.all isDigitChar ∧ ¬(ip.isEmpty ∧ frac.isEmpty) then
      match parseDigitsAux ip 0, parseDigitsAux frac 0 with
      | some n, some f => some (sgn * ((n : ℚ) + (f : ℚ) / (10 : ℚ) ^ frac.length))
      | _, _ => none
    else none
  | _ => none

/-- ASCII character of a decimal digit value. -/
def digitChar (d : Nat) : Char :=
  Char.ofNat (48 + d)

/-- Models `format!("{}", u)` for `u64`: default decimal formatting. -/
def formatU64 (n : Nat) : String :=
  if n = 0 then "0" else ⟨((Nat.digits 10 n).reverse.map digitChar)⟩

/-- Models `format!("{}", i)` for `i64`: minus sign for negatives, then the
decimal digits of the magnitude. -/
def formatI64 (i : Int) : String :=
  if i < 0 then "-" ++ formatU64 i.natAbs else formatU64 i.natAbs

/-- Models `format!("{}", b)` for `bool`. -/
def formatBool (b : Bool) : String :=
  if b then "true" else "false"

/-- Stand-in for `format!("{}", f)` on the `ℚ` model of `f64`. Rust's float
`Display` (shortest round-trip representation) is not reproduced digit for
digit; no claim depends on the produced text, only on the conversion being
total. -/
def formatF64 (q : ℚ) : String :=
  toString q

/-! ## The 5×5 conversion matrix (`convert.rs`)

Each `impl VecConvert<T> for Vec<S>` becomes one function. Conversions whose
Rust body contains `.unwrap()` return `Option` — `none` models the panic of
the unwrap (there is no error channel in `vec_convert`). The remaining
conversions are plain total maps, exactly as in the source.

The checked casts of the `num` crate's `ToPrimitive` are modelled on the
value level: `to_i64`/`to_u64`/`to_f64` succeed exactly on values
representable in the target type (truncating the fractional part for float
sources), and return `None` — hence a panic under `.unwrap()` — otherwise.
-/

/-- Models `iter().map(|x| f(x).unwrap()).collect()`: the element conversion
is applied in order and the first `None` — a panicking `unwrap` — aborts the
whole column conversion with no result. -/
def mapUnwrap {α β : Type} (f : α → Option β) : List α → Option (List β)
  | [] => some []
  | a :: rest =>
    match f a with
    | none => none
    | some b => (mapUnwrap f rest).map (fun bs => b :: bs)

/-- Models `u64::to_i64` (checked, `None` above `i64::MAX`). -/
def u64_to_i64 (u : Nat) : Option Int :=
  if u < 2 ^ 63 then some (u : Int) else none

/-- Models `i64::to_u64` (checked, `None` for negatives). -/
def i64_to_u64 (i : Int) : Option Nat :=
  if 0 ≤ i then some i.toNat else none

/-- Models `f64::to_u64` on the rational model: truncate toward zero,
`None` outside `[0, 2^64)`. -/
def f64_to_u64 (q : ℚ) : Option Nat :=
  if 0 ≤ q ∧ q < 2 ^ 64 then some q.floor.toNat else none

/-- Models `f64::to_i64` on the rational model: truncate toward zero,
`None` outside `(-2^63 - 1, 2^63)`. -/
def f64_to_i64 (q : ℚ) : Option Int :=
  if -(2 ^ 63) ≤ q ∧ q < 2 ^ 63 then some (if q < 0 then -((-q).floor) else q.floor) else none

-- Unsigned -> *
def vec_convert_unsigned_to_unsigned (v : List Nat) : List Nat := v
def vec_convert_unsigned_to_signed (v : List Nat) : Option (List Int) :=
  mapUnwrap u64_to_i64 v
def vec_convert_unsigned_to_text (v : List Nat) : List String :=
  v.map formatU64
def vec_convert_unsigned_to_boolean (v : List Nat) : List Bool :=
  v.map (fun u => if u = 0 then false else true)
def vec_convert_unsigned_to_float (v : List Nat) : List ℚ :=
  v.map (fun u => (u : ℚ))

-- Signed -> *
def vec_convert_signed_to_unsigned (v : List Int) : Option (List Nat) :=
  mapUnwrap i64_to_u64 v
def vec_convert_signed_to_signed (v : List Int) : List Int := v
def vec_convert_signed_to_text (v : List Int) : List String :=
  v.map formatI64
def vec_convert_signed_to_boolean (v : List Int) : List Bool :=
  v.map (fun i => if i = 0 then false else true)
def vec_convert_signed_to_float (v : List Int) : List ℚ :=
  v.map (fun i => (i : ℚ))

-- String -> *
def vec_convert_text_to_unsigned (v : List String) : Option (List Nat) :=
  mapUnwrap parseU64 v
def vec_convert_text_to_signed (v : List String) : Option (List Int) :=
  mapUnwrap parseI64 v
def vec_convert_text_to_text (v : List String) : List String := v
def vec_convert_text_to_boolean (v : List String) : Option (List Bool) :=
  mapUnwrap parseBool v
def vec_convert_text_to_float (v : List String) : Option (List ℚ) :=
  mapUnwrap parseF64 v

-- Bool -> *
def vec_convert_boolean_to_unsigned (v : List Bool) : List Nat :=
  v.map (fun b => if b then 1 else 0)
def vec_convert_boolean_to_signed (v : List Bool) : List Int :=
  v.map (fun b => if b then 1 else 0)
def vec_convert_boolean_to_text (v : List Bool) : List String :=
  v.map formatBool
def vec_convert_boolean_to_boolean (v : List Bool) : List Bool := v
def vec_convert_boolean_to_float (v : List Bool) : List ℚ :=
  v.map (fun b => if b then 1 else 0)

-- Float -> *
def vec_convert_float_to_unsigned (v : List ℚ) : Option (List Nat) :=
  mapUnwrap f64_to_u64 v
def vec_convert_float_to_signed (v : List ℚ) : Option (List Int) :=
  mapUnwrap f64_to_i64 v
def vec_convert_float_to_text (v : List ℚ) : List String :=
  v.map formatF64
def vec_convert_float_to_boolean (v : List ℚ) : List Bool :=
  v.map (fun f => if f = 0 then false else true)
def vec_convert_float_to_float (v : List ℚ) : List ℚ := v

/-! ## The column store (`datastore.rs`) -/

/-- Field type enumeration (`config.rs`, `FieldType`). -/
inductive FieldType where
  | Unsigned
  | Signed
  | Text
  | Boolean
  | Float
deriving DecidableEq, Repr

/-- Field information for a field within a data store (`datastore.rs`,
`FieldInfo`). -/
structure FieldInfo where
  index : Nat
  name : String
  ty : FieldType
deriving DecidableEq, Repr

/-- A per-type storage bucket: the association-list model of
`HashMap<String, Vec<T>>`. -/
abbrev Bucket (α : Type) := List (String × List α)

/-- Models `HashMap::get`. -/
def bktGet {α : Type} (h : Bucket α) (k : String) : Option (List α) :=
  match h with
  | [] => none
  | (k1, v) :: rest => if k1 = k then some v else bktGet rest k

/-- Models `HashMap::contains_key`. -/
def bktContains {α : Type} (h : Bucket α) (k : String) : Bool :=
  (bktGet h k).isSome

/-- Models `HashMap::insert` (replaces the value for an existing key, appends
a new binding otherwise); the old value is recovered via `bktGet`. -/
def bktPut {α : Type} (h : Bucket α) (k : String) (v : List α) : Bucket α :=
  match h with
  | [] => [(k, v)]
  | (k1, v1) :: rest => if k1 = k then (k1, v) :: rest else (k1, v1) :: bktPut rest k v

/-- Models the free function `insert_value` of `datastore.rs`: push onto an
existing vector, or create a singleton vector. -/
def insert_value {α : Type} (h : Bucket α) (k : String) (x : α) : Bucket α :=
  match bktGet h k with
  | some old => bktPut h k (old ++ [x])
  | none => bktPut h k [x]

/-- Models the free function `max_len` of `datastore.rs`. -/
def max_len {α : Type} (h : Bucket α) : Nat :=
  h.foldl (fun acc p => max acc p.2.length) 0

/-- Models the free function `is_hm_homogeneous` of `datastore.rs`: `some`
of the common vector length when all vectors in the bucket have equal length
(`some 0` for an empty bucket), `none` otherwise. The source's loop takes the
first entry's length as target and conjoins equality over all entries, which
is what the match below computes. -/
def is_hm_homogeneous {α : Type} (h : Bucket α) : Option Nat :=
  match h with
  | [] => some 0
  | (_, v) :: rest =>
    if rest.all (fun p => p.2.length = v.length) then some v.length else none

/-- Models the free function `is_hm_homogeneous_with` of `datastore.rs`. -/
def is_hm_homogeneous_with {α : Type} (h : Bucket α) (value : Nat) : Option Nat :=
  (is_hm_homogeneous h).bind (fun x =>
    if x = 0 ∧ value ≠ 0 then some value
    else if (value = 0 ∧ x ≠ 0) ∨ x = value then some x
    else none)

/-- Data storage underlying a dataframe (`datastore.rs`, `DataStore`). -/
structure DataStore where
  fields : List FieldInfo
  field_map : List (String × Nat)
  unsigned : Bucket Nat
  signed : Bucket Int
  text : Bucket String
  boolean : Bucket Bool
  float : Bucket ℚ
deriving DecidableEq, Repr

/-- Errors of the embedded operations, mirroring the `error_chain` kinds of
`errors.rs` plus the distinct messages produced in `datastore.rs`. -/
inductive EtlError where
  | dataFrame (msg : String)
  | dataConfig (msg : String)
  | parse (msg : String)
deriving DecidableEq, Repr

/-- Models `HashMap::get`/`contains_key` on the name→index `field_map`. -/
def fieldMapGet (h : List (String × Nat)) (k : String) : Option Nat :=
  match h with
  | [] => none
  | (k1, v) :: rest => if k1 = k then some v else fieldMapGet rest k

deriving instance DecidableEq for Except

/-- Models `DataStore::empty`. -/
def DataStore.empty : DataStore :=
  { fields := [], field_map := [], unsigned := [], signed := [], text := [],
    boolean := [], float := [] }

/-- Models the private `DataStore::add_field`: register the field in the
ordered descriptor list and the name→index map unless the name is already
registered. -/
def DataStore.add_field (ds : DataStore) (field_name : String) (field_type : FieldType) :
    DataStore :=
  if (fieldMapGet ds.field_map field_name).isSome then ds
  else
    { ds with
      fields := ds.fields ++ [⟨ds.fields.length, field_name, field_type⟩],
      field_map := ds.field_map ++ [(field_name, ds.fields.length)] }

/-- Models `DataStore::insert_unsigned`. -/
def DataStore.insert_unsigned (ds : DataStore) (field_name : String) (value : Nat) : DataStore :=
  let ds := ds.add_field field_name .Unsigned
  { ds with unsigned := insert_value ds.unsigned field_name value }

/-- Models `DataStore::insert_signed`. -/
def DataStore.insert_signed (ds : DataStore) (field_name : String) (value : Int) : DataStore :=
  let ds := ds.add_field field_name .Signed
  { ds with signed := insert_value ds.signed field_name value }

/-- Models `DataStore::insert_text`. -/
def DataStore.insert_text (ds : DataStore) (field_name : String) (value : String) : DataStore :=
  let ds := ds.add_field field_name .Text
  { ds with text := insert_value ds.text field_name value }

/-- Models `DataStore::insert_boolean`. -/
def DataStore.insert_boolean (ds : DataStore) (field_name : String) (value : Bool) : DataStore :=
  let ds := ds.add_field field_name .Boolean
  { ds with boolean := insert_value ds.boolean field_name value }

/-- Models `DataStore::insert_float`. -/
def DataStore.insert_float (ds : DataStore) (field_name : String) (value : ℚ) : DataStore :=
  let ds := ds.add_field field_name .Float
  { ds with float := insert_value ds.float field_name value }

/-- Models `DataStore::insert`: parse the raw string per the field type and
append; a parse failure leaves the store untouched and reports the error. -/
def DataStore.insert (ds : DataStore) (field_name : String) (field_type : FieldType)
    (value_str : String) : Except EtlError DataStore :=
  match field_type with
  | .Unsigned =>
    match parseU64 value_str with
    | some v => .ok (ds.insert_unsigned field_name v)
    | none => .error (.parse "unsigned integer parse error")
  | .Signed =>
    match parseI64 value_str with
    | some v => .ok (ds.insert_signed field_name v)
    | none => .error (.parse "signed integer parse error")
  | .Text => .ok (ds.insert_text field_name value_str)
  | .Boolean =>
    match parseBool value_str with
    | some v => .ok (ds.insert_boolean field_name v)
    | none => .error (.parse "boolean parse error")
  | .Float =>
    match parseF64 value_str with
    | some v => .ok (ds.insert_float field_name v)
    | none => .error (.parse "floating point parse error")

/-- Models `DataStore::merge_unsigned`: `add_field`, then `HashMap::insert`
of the whole vector. The insertion happens unconditionally — when the key was
already present the old column has been replaced by the time the
clobbered-field error is returned. The pair carries the mutated store (Rust
mutates `self` in place) and the optional error. -/
def DataStore.merge_unsigned (ds : DataStore) (field_name : String) (v : List Nat) :
    DataStore × Option EtlError :=
  let ds1 := ds.add_field field_name .Unsigned
  let old := bktGet ds1.unsigned field_name
  ({ ds1 with unsigned := bktPut ds1.unsigned field_name v },
    if old.isSome then
      some (.dataFrame ("merging field " ++ field_name ++ " clobbered existing field"))
    else none)

/-- Models `DataStore::merge_signed`. -/
def DataStore.merge_signed (ds : DataStore) (field_name : String) (v : List Int) :
    DataStore × Option EtlError :=
  let ds1 := ds.add_field field_name .Signed
  let old := bktGet ds1.signed field_name
  ({ ds1 with signed := bktPut ds1.signed field_name v },
    if old.isSome then
      some (.dataFrame ("merging field " ++ field_name ++ " clobbered existing field"))
    else none)

/-- Models `DataStore::merge_text`. -/
def DataStore.merge_text (ds : DataStore) (field_name : String) (v : List String) :
    DataStore × Option EtlError :=
  let ds1 := ds.add_field field_name .Text
  let old := bktGet ds1.text field_name
  ({ ds1 with text := bktPut ds1.text field_name v },
    if old.isSome then
      some (.dataFrame ("merging field " ++ field_name ++ " clobbered existing field"))
    else none)

/-- Models `DataStore::merge_boolean`. -/
def DataStore.merge_boolean (ds : DataStore) (field_name : String) (v : List Bool) :
    DataStore × Option EtlError :=
  let ds1 := ds.add_field field_name .Boolean
  let old := bktGet ds1.boolean field_name
  ({ ds1 with boolean := bktPut ds1.boolean field_name v },
    if old.isSome then
      some (.dataFrame ("merging field " ++ field_name ++ " clobbered existing field"))
    else none)

/-- Models `DataStore::merge_float`. -/
def DataStore.merge_float (ds : DataStore) (field_name : String) (v : List ℚ) :
    DataStore × Option EtlError :=
  let ds1 := ds.add_field field_name .Float
  let old := bktGet ds1.float field_name
  ({ ds1 with float := bktPut ds1.float field_name v },
    if old.isSome then
      some (.dataFrame ("merging field " ++ field_name ++ " clobbered existing field"))
    else none)

/-- A typed column, used to state properties uniformly over the five
per-type buckets. -/
inductive ColumnData where
  | unsigned (v : List Nat)
  | signed (v : List Int)
  | text (v : List String)
  | boolean (v : List Bool)
  | float (v : List ℚ)
deriving DecidableEq, Repr

/-- Look up the column stored under `name` in the bucket selected by `ty`. -/
def DataStore.getCol (ds : DataStore) (ty : FieldType) (name : String) : Option ColumnData :=
  match ty with
  | .Unsigned => (bktGet ds.unsigned name).map .unsigned
  | .Signed => (bktGet ds.signed name).map .signed
  | .Text => (bktGet ds.text name).map .text
  | .Boolean => (bktGet ds.boolean name).map .boolean
  | .Float => (bktGet ds.float name).map .float

/-- Whether the bucket selected by `ty` contains `name`. -/
def DataStore.bucketHas (ds : DataStore) (ty : FieldType) (name : String) : Bool :=
  (ds.getCol ty name).isSome

/-- Dispatch of `merge_fields`'s per-type body for a single already-extracted
column: calls the matching `merge_*`. -/
def DataStore.mergeColumnData (ds : DataStore) (field_name : String) (cd : ColumnData) :
    DataStore × Option EtlError :=
  match cd with
  | .unsigned v => ds.merge_unsigned field_name v
  | .signed v => ds.merge_signed field_name v
  | .text v => ds.merge_text field_name v
  | .boolean v => ds.merge_boolean field_name v
  | .float v => ds.merge_float field_name v

/-- Models one iteration of `DataStore::merge_fields`: fetch the named column
of the given type from `src` (an absent column is the
`unable to merge field_name ...: does not exist` error), then merge it. -/
def DataStore.merge_field_step (ds : DataStore) (field_name : String) (field_type : FieldType)
    (src : DataStore) : DataStore × Option EtlError :=
  match src.getCol field_type field_name with
  | none => (ds, some (.dataFrame ("unable to merge field_name " ++ field_name
      ++ ": does not exist")))
  | some cd => ds.mergeColumnData field_name cd

/-- Models the loop of `DataStore::merge` over `other.fields` (each step is
`merge_field`, i.e. `merge_fields` on a single name): the `?` operator stops
at the first error, with all mutations up to that point kept. -/
def DataStore.merge_go (ds : DataStore) (src : DataStore) :
    List FieldInfo → DataStore × Option EtlError
  | [] => (ds, none)
  | f :: fs =>
    match ds.merge_field_step f.name f.ty src with
    | (ds1, some e) => (ds1, some e)
    | (ds1, none) => ds1.merge_go src fs

/-- Models `DataStore::merge`: merge every field of `other` into `ds`. -/
def DataStore.merge (ds : DataStore) (other : DataStore) : DataStore × Option EtlError :=
  ds.merge_go other other.fields

/-- Models `DataStore::is_homogeneous`: chain the per-bucket homogeneity
checks through `is_hm_homogeneous_with`. -/
def DataStore.is_homogeneous (ds : DataStore) : Bool :=
  ((is_hm_homogeneous ds.unsigned).bind (fun x =>
    (is_hm_homogeneous_with ds.signed x).bind (fun x =>
      (is_hm_homogeneous_with ds.text x).bind (fun x =>
        (is_hm_homogeneous_with ds.boolean x).bind (fun x =>
          is_hm_homogeneous_with ds.float x))))).isSome

/-- Models `DataStore::nrows`: maximum column length over all five buckets. -/
def DataStore.nrows (ds : DataStore) : Nat :=
  max (max (max (max (max_len ds.unsigned) (max_len ds.signed)) (max_len ds.text))
    (max_len ds.boolean)) (max_len ds.float)

/-! ## Filters (`config.rs`) -/

/-- Type of inequality (`config.rs`, `InequalityMethod`). -/
inductive InequalityMethod where
  | Gt
  | Gte
  | Lt
  | Lte
deriving DecidableEq, Repr

/-- Models `InequalityMethod::does_satisfy` (generic over `PartialOrd`). -/
def InequalityMethod.does_satisfy {T : Type} [LinearOrder T] (m : InequalityMethod)
    (value : T) (target : T) : Bool :=
  match m with
  | .Gt => value > target
  | .Gte => value ≥ target
  | .Lt => value < target
  | .Lte => value ≤ target

/-- Configuration details for matching-based filters (`config.rs`,
`MatchConfig`). At most one of the five typed targets is populated in a valid
configuration; the code checks them in the declaration order below. -/
structure MatchConfig where
  text : Option String
  signed : Option Int
  unsigned : Option Nat
  boolean : Option Bool
  float : Option ℚ
deriving DecidableEq, Repr

/-- Models `MatchConfig::does_match`: the first populated target decides the
comparison type; the raw value is parsed as that type (text compares
directly), a parse failure is an error, and a fully unpopulated config is the
`missing match value` configuration error. -/
def MatchConfig.does_match (c : MatchConfig) (value_str : String) : Except EtlError Bool :=
  match c.text with
  | some s => .ok (s = value_str)
  | none =>
    match c.signed with
    | some i =>
      match parseI64 value_str with
      | some v => .ok (i = v)
      | none => .error (.parse "signed integer parse error")
    | none =>
      match c.unsigned with
      | some u =>
        match parseU64 value_str with
        | some v => .ok (u = v)
        | none => .error (.parse "unsigned integer parse error")
      | none =>
        match c.boolean with
        | some b =>
          match parseBool value_str with
          | some v => .ok (b = v)
          | none => .error (.parse "boolean parse error")
        | none =>
          match c.float with
          | some f =>
            match parseF64 value_str with
            | some v => .ok (f = v)
            | none => .error (.parse "float parse error")
          | none => .error (.dataConfig "missing match value")

/-- Configuration details for inequality-based filters (`config.rs`,
`InequalityConfig`). -/
structure InequalityConfig where
  inequality : InequalityMethod
  signed : Option Int
  unsigned : Option Nat
  float : Option ℚ
deriving DecidableEq, Repr

/-- Models `InequalityConfig::does_satisfy`. -/
def InequalityConfig.does_satisfy (c : InequalityConfig) (value_str : String) :
    Except EtlError Bool :=
  match c.signed with
  | some i =>
    match parseI64 value_str with
    | some v => .ok (c.inequality.does_satisfy v i)
    | none => .error (.parse "signed integer parse error")
  | none =>
    match c.unsigned with
    | some u =>
      match parseU64 value_str with
      | some v => .ok (c.inequality.does_satisfy v u)
      | none => .error (.parse "unsigned integer parse error")
    | none =>
      match c.float with
      | some f =>
        match parseF64 value_str with
        | some v => .ok (c.inequality.does_satisfy v f)
        | none => .error (.parse "float parse error")
      | none => .error (.dataConfig "missing inequality value")

/-- Filter method (`config.rs`, `FilterMethod`). -/
inductive FilterMethod where
  | Match (config : MatchConfig)
  | MatchNot (config : MatchConfig)
  | Inequality (config : InequalityConfig)
deriving DecidableEq, Repr

/-- Models `FilterMethod::apply`. -/
def FilterMethod.apply (m : FilterMethod) (value_str : String) : Except EtlError Bool :=
  match m with
  | .Match config => config.does_match value_str
  | .MatchNot config => (config.does_match value_str).map (fun b => !b)
  | .Inequality config => config.does_satisfy value_str

/-- Source file filter (`config.rs`, `Filter`). -/
structure Filter where
  source_field : String
  filter : FilterMethod
deriving DecidableEq, Repr

/-- Models `Filter::apply`. -/
def Filter.apply (f : Filter) (value_str : String) : Except EtlError Bool :=
  f.filter.apply value_str

/-! ## Transform configurations and numeric kernels (`config.rs`,
`transform.rs`)

The per-method `transform_fields` implementations first run validation
(source arity — note the Rust `!source_fields.len() == 1` applies bitwise
negation to the length, so that guard can never fire — field existence and
source-type checks) and finally merge the computed column(s) into a fresh
empty store under the target name, which always succeeds. The numeric kernels
below are the exact column computations of `transform.rs`; the surrounding
lookup/validation/merge is claim-irrelevant boilerplate and is elided. -/

/-- Configuration of a normalization transformation (`config.rs`,
`NormalizeConfig`). -/
structure NormalizeConfig where
  sample_stdev_correction : Option ℚ
deriving DecidableEq, Repr

/-- Models the getter `NormalizeConfig::sample_stdev_correction` (defaults
to `0.0`). -/
def NormalizeConfig.sampleStdevCorrection (c : NormalizeConfig) : ℚ :=
  c.sample_stdev_correction.getD 0

/-- Configuration for a scaling transformation (`config.rs`, `ScaleConfig`). -/
structure ScaleConfig where
  min_value : Option ℚ
  max_value : Option ℚ
deriving DecidableEq, Repr

/-- Models `ScaleConfig::min_value` (defaults to `0.0`). -/
def ScaleConfig.minValue (c : ScaleConfig) : ℚ :=
  c.min_value.getD 0

/-- Models `ScaleConfig::max_value` (defaults to `1.0`). -/
def ScaleConfig.maxValue (c : ScaleConfig) : ℚ :=
  c.max_value.getD 1

/-- Models `ScaleConfig::has_custom_minmax`. -/
def ScaleConfig.hasCustomMinmax (c : ScaleConfig) : Bool :=
  c.min_value.isSome || c.max_value.isSome

/-- Models the free function `mean` of `transform.rs` (rational model; the
empty-column division `0/0` is `0` in `ℚ` where f64 yields NaN). -/
def meanQ (v : List ℚ) : ℚ :=
  (v.foldl (fun acc f => acc + f) 0) / (v.length : ℚ)

/-- Models the free function `variance` of `transform.rs`: columns with fewer
than two values have variance `0` (returned before the assertion); otherwise
`assert!(correction != v.len())` — a failure, modelled as `none`, panics the
transform — and then the corrected sum of squares. -/
def varianceQ (v : List ℚ) (mu : ℚ) (correction : ℚ) : Option ℚ :=
  if v.length < 2 then some 0
  else if correction = (v.length : ℚ) then none
  else some ((v.foldl (fun acc f => acc + (f - mu) * (f - mu)) 0)
    / ((v.length : ℚ) - correction))

/-- Models `data_vec.iter().fold(f64::NEG_INFINITY, |acc, &f| acc.max(f))`
of `ScaleConfig::transform_fields` for a non-empty column (the `ℚ` model has
no `-∞`; on the empty column the Rust fold yields `-∞` and the transform
produces NaNs, outside the model). -/
def dataMaxQ : List ℚ → ℚ
  | [] => 0
  | x :: xs => xs.foldl max x

/-- Models `data_vec.iter().fold(f64::INFINITY, |acc, &f| acc.min(f))` of
`ScaleConfig::transform_fields` for a non-empty column. -/
def dataMinQ : List ℚ → ℚ
  | [] => 0
  | x :: xs => xs.foldl min x

/-- Models the column computation of `impl TransformFields for ScaleConfig`:
the observed minimum and maximum of the data fix the affine map; with a
custom min/max each value contributes `alpha = (f - data_min) / range` and
maps to `(1 - alpha) * min_value + alpha * max_value`, otherwise to
`(f - data_min) / range` directly. -/
def scale_transform (cfg : ScaleConfig) (data : List ℚ) : List ℚ :=
  let data_max := dataMaxQ data
  let data_min := dataMinQ data
  let range := data_max - data_min
  if cfg.hasCustomMinmax then
    data.map (fun f =>
      (1 - (f - data_min) / range) * cfg.minValue + ((f - data_min) / range) * cfg.maxValue)
  else
    data.map (fun f => (f - data_min) / range)

/-! ## The transform worklist and the filtered ingestion row loop

The crate revision under verification ships `config.rs`/`datastore.rs`/
`transform.rs`/`convert.rs` of the current design, but `dataframe/dataframe.rs`
in the source tree is a stale earlier revision (it references `FieldType::Str`,
`TransformType` and `config::Config`, none of which exist in this crate, has
no filter support and no worklist). The dependency-driven resolver and the
filter-gated row ingestion that the integration tests exercise are therefore
modelled from the spec, on top of the faithful `Filter`/`DataStore`
embeddings above. -/

/-- Modelled from the spec: the name-level view of one entry of the transform
worklist (§4.5). `source_fields` and `target_name` are the fields of
`config.rs`'s `Transform`; a transform is ready when every source name exists
in the raw store or the growing transformed store (the check performed by
`Transform::source_exists` via `check_transform_source` on `field_map`), and
executing it records its `generated_names` (the single target for most
methods, the derived `<target>_<value>`/`<target>_<bucket>` family for the
vectorizers). -/
structure TransformNode where
  source_fields : List String
  target_name : String
  generated_names : List String
deriving DecidableEq, Repr

/-- Modelled from the spec: readiness test of a pending transform against the
available field names (`Transform::source_exists`). -/
def sourcesReady (avail : List String) (t : TransformNode) : Bool :=
  t.source_fields.all (fun s => avail.contains s)

/-- Modelled from the spec: one full worklist pass (§4.5). Each pending
transform whose sources are all available is executed (its generated names
join the available set, visible to later transforms in the same pass);
the rest stay pending in order. -/
def worklistPass (avail : List String) :
    List TransformNode → List String × List TransformNode
  | [] => (avail, [])
  | t :: rest =>
    if sourcesReady avail t then worklistPass (avail ++ t.generated_names) rest
    else
      let (a1, p1) := worklistPass avail rest
      (a1, t :: p1)

/-- Modelled from the spec: repeat worklist passes; a pass with zero progress
while transforms remain pending aborts with a `DependencyError` naming every
still-pending transform's target. Fuel `transforms.length` suffices because
every continuing pass strictly shrinks the pending list. -/
def worklistLoop : Nat → List String → List TransformNode →
    Except (List String) (List String)
  | 0, avail, pending =>
    if pending.isEmpty then .ok avail else .error (pending.map (fun t => t.target_name))
  | fuel + 1, avail, pending =>
    if pending.isEmpty then .ok avail
    else
      let (a1, p1) := worklistPass avail pending
      if p1.length = pending.length then .error (p1.map (fun t => t.target_name))
      else worklistLoop fuel a1 p1

/-- Modelled from the spec: fixed-point resolution of the transform list
(§4.5), starting from the raw store's field names. -/
def resolve_transforms (raw_fields : List String) (transforms : List TransformNode) :
    Except (List String) (List String) :=
  worklistLoop transforms.length raw_fields transforms

/-- Modelled from the spec: a header-bound field of the ingestion pipeline
(§4.4) — the field descriptor (target name, declared type, column index into
the data row) plus the optional filter bound to it. -/
structure BoundField where
  finfo : FieldInfo
  bound_filter : Option Filter
deriving DecidableEq, Repr

/-- Cell of a data row at a bound field's column index; an out-of-range index
is an ingestion error. -/
def rowCell (row : List String) (idx : Nat) : Except EtlError String :=
  match row.get? idx with
  | some s => .ok s
  | none => .error (.dataFrame "field index out of bounds")

/-- Modelled from the spec: evaluate every bound filter for the row using the
decoded cell values (§4.4), via the embedded `Filter::apply`. A filter error
aborts; otherwise the row passes exactly when every filter accepts. -/
def row_filters_pass (bound : List BoundField) (row : List String) : Except EtlError Bool :=
  match bound with
  | [] => .ok true
  | bf :: rest =>
    match bf.bound_filter with
    | none => row_filters_pass rest row
    | some f =>
      match rowCell row bf.finfo.index with
      | .error e => .error e
      | .ok cell =>
        match f.apply cell with
        | .error e => .error e
        | .ok b => if b then row_filters_pass rest row else .ok false

/-- Modelled from the spec: commit every bound field's cell of a passing row
under its target name and declared type, via `DataStore::insert` (§4.4). -/
def insert_row_fields (bound : List BoundField) (row : List String) (ds : DataStore) :
    Except EtlError DataStore :=
  match bound with
  | [] => .ok ds
  | bf :: rest =>
    match rowCell row bf.finfo.index with
    | .error e => .error e
    | .ok cell =>
      match ds.insert bf.finfo.name bf.finfo.ty cell with
      | .error e => .error e
      | .ok ds1 => insert_row_fields rest row ds1

/-- Modelled from the spec: process one data row — all filters are evaluated
before any insert; a rejected row is skipped atomically (§4.4). -/
def process_row (bound : List BoundField) (row : List String) (ds : DataStore) :
    Except EtlError DataStore :=
  match row_filters_pass bound row with
  | .error e => .error e
  | .ok false => .ok ds
  | .ok true => insert_row_fields bound row ds

/-- Modelled from the spec: the row loop of `extract_data` over the decoded
data rows, starting from an empty store. -/
def extract_rows (bound : List BoundField) (ds : DataStore) :
    List (List String) → Except EtlError DataStore
  | [] => .ok ds
  | row :: rest =>
    match process_row bound row ds with
    | .error e => .error e
    | .ok ds1 => extract_rows bound ds1 rest

/-- Modelled from the spec: ingestion of a decoded file body (list of data
rows) through the bound fields and filters. -/
def extract_data (bound : List BoundField) (rows : List (List String)) :
    Except EtlError DataStore :=
  extract_rows bound DataStore.empty rows


/-! ## Decimal round-trip lemmas -/

theorem charDigit_digitChar : ∀ d, d < 10 → charDigit (digitChar d) = some d := by
  decide

theorem digitChar_ne_plus : ∀ d, d < 10 → digitChar d ≠ '+' := by
  decide

theorem stripPlus_of_head_ne (c : Char) (cs : List Char) (h : c ≠ '+') :
    stripPlus (c :: cs) = c :: cs := by
  unfold stripPlus
  split
  · rename_i heq
    cases heq
    exact absurd rfl h
  · rfl

theorem parseDigitsAux_map_digitChar (bs : List Nat) (h : ∀ d ∈ bs, d < 10) (acc : Nat) :
    parseDigitsAux (bs.map digitChar) acc =
      some (bs.foldl (fun a d => a * 10 + d) acc) := by
  induction bs generalizing acc with
  | nil => rfl
  | cons d rest ih =>
    have hd : d < 10 := h d (List.mem_cons_self d rest)
    simp only [List.map_cons, parseDigitsAux, charDigit_digitChar d hd, List.foldl_cons]
    exact ih (fun x hx => h x (List.mem_cons_of_mem d hx)) (acc * 10 + d)

theorem foldr_mul_add_eq_ofDigits (l : List Nat) :
    l.foldr (fun x y => y * 10 + x) 0 = Nat.ofDigits 10 l := by
  induction l with
  | nil => simp [Nat.ofDigits_nil]
  | cons d rest ih =>
    simp only [List.foldr_cons, ih, Nat.ofDigits_cons]
    ring

theorem foldl_reverse_eq_ofDigits (l : List Nat) :
    (l.reverse).foldl (fun a d => a * 10 + d) 0 = Nat.ofDigits 10 l := by
  rw [List.foldl_reverse]
  exact foldr_mul_add_eq_ofDigits l

theorem parseU64_formatU64 (n : Nat) (h : n < 2 ^ 64) : parseU64 (formatU64 n) = some n := by
  by_cases h0 : n = 0
  · subst h0
    decide
  · have hds : Nat.digits 10 n ≠ [] := Nat.digits_ne_nil_iff_ne_zero.mpr h0
    have hlt : ∀ d ∈ (Nat.digits 10 n).reverse, d < 10 := by
      intro d hd
      exact Nat.digits_lt_base (by norm_num) (List.mem_reverse.mp hd)
    have hrevne : (Nat.digits 10 n).reverse ≠ [] := by
      simpa using hds
    obtain ⟨e, es, hcons⟩ := List.exists_cons_of_ne_nil hrevne
    have he : e < 10 := hlt e (by rw [hcons]; exact List.mem_cons_self e es)
    have hdata : (formatU64 n).data = (Nat.digits 10 n).reverse.map digitChar := by
      simp [formatU64, h0]
    unfold parseU64
    rw [hdata, hcons, List.map_cons,
      stripPlus_of_head_ne _ _ (digitChar_ne_plus e he), ← List.map_cons, ← hcons]
    have : parseDigits ((Nat.digits 10 n).reverse.map digitChar) = some n := by
      rw [hcons, List.map_cons]
      show parseDigitsAux (digitChar e :: es.map digitChar) 0 = some n
      rw [← List.map_cons, ← hcons, parseDigitsAux_map_digitChar _ hlt 0,
        foldl_reverse_eq_ofDigits, Nat.ofDigits_digits]
    rw [this]
    simp only [if_pos h]


theorem mapUnwrap_map_some {α β : Type} (f : α → Option β) (g : β → α) (l : List β)
    (h : ∀ b ∈ l, f (g b) = some b) : mapUnwrap f (l.map g) = some l := by
  induction l with
  | nil => rfl
  | cons b rest ih =>
    have hb := h b (List.mem_cons_self b rest)
    have hrest := ih (fun x hx => h x (List.mem_cons_of_mem b hx))
    simp [mapUnwrap, hb, hrest]

theorem mapUnwrap_isSome_iff {α β : Type} (f : α → Option β) (l : List α) :
    (mapUnwrap f l).isSome = true ↔ ∀ x ∈ l, (f x).isSome = true := by
  induction l with
  | nil => simp [mapUnwrap]
  | cons a rest ih =>
    cases ha : f a with
    | none => simp [mapUnwrap, ha]
    | some b =>
      simp [mapUnwrap, ha, ih]

/-- **C9.** For every column of unsigned integers (all values representable
in `u64`), converting Unsigned→Text with the default decimal formatting and
then Text→Unsigned yields the original column: the non-lossy round-trip is
exact. -/
theorem c9_unsigned_text_unsigned_roundtrip (col : List Nat)
    (h : ∀ u ∈ col, u < 2 ^ 64) :
    vec_convert_text_to_unsigned (vec_convert_unsigned_to_text col) = some col := by
  unfold vec_convert_text_to_unsigned vec_convert_unsigned_to_text
  exact mapUnwrap_map_some parseU64 formatU64 col (fun u hu => parseU64_formatU64 u (h u hu))

/-- Witness for C9 at a concrete column including `0` and `u64::MAX`. -/
theorem c9_witness :
    (∀ u ∈ [0, 7, 12345, 18446744073709551615], u < 2 ^ 64) ∧
      vec_convert_text_to_unsigned
          (vec_convert_unsigned_to_text [0, 7, 12345, 18446744073709551615]) =
        some [0, 7, 12345, 18446744073709551615] :=
  ⟨by decide, c9_unsigned_text_unsigned_roundtrip _ (by decide)⟩

theorem i64_to_u64_isSome (i : Int) : (i64_to_u64 i).isSome = true ↔ 0 ≤ i := by
  unfold i64_to_u64
  split <;> simp_all

theorem u64_to_i64_isSome (u : Nat) : (u64_to_i64 u).isSome = true ↔ u < 2 ^ 63 := by
  unfold u64_to_i64
  split <;> simp_all

theorem f64_to_u64_isSome (q : ℚ) : (f64_to_u64 q).isSome = true ↔ 0 ≤ q ∧ q < 2 ^ 64 := by
  unfold f64_to_u64
  split <;> simp_all

theorem f64_to_i64_isSome (q : ℚ) :
    (f64_to_i64 q).isSome = true ↔ -(2 ^ 63) ≤ q ∧ q < 2 ^ 63 := by
  unfold f64_to_i64
  split <;> simp_all

/-- **C1 counterexample.** The claim says `convert` is total (never panics),
that any unparsable Text value fails the conversion *as an error result*, and
that numeric narrowing truncates/wraps. In the code every lossy `vec_convert`
calls `.unwrap()`: Text→Unsigned on the unparsable `"abc"` panics (no value
is produced — and there is no error channel in `vec_convert` at all), and
Signed→Unsigned on `-1` panics inside the checked `to_u64()` cast instead of
wrapping to `2^64 - 1`. -/
theorem c1_counterexample :
    (vec_convert_text_to_unsigned ["abc"]).isSome = false ∧
      (vec_convert_signed_to_unsigned [-1]).isSome = false ∧
      vec_convert_signed_to_unsigned [-1] ≠ some [2 ^ 64 - 1] := by
  refine ⟨by decide, by decide, ?_⟩
  decide

/-- **C1 (amended).** `convert` is not total: the conversions whose Rust body
unwraps (`Text→{Unsigned,Signed,Boolean,Float}` parses and the checked
numeric casts `Signed→Unsigned`, `Unsigned→Signed`, `Float→{Unsigned,Signed}`)
panic — produce no result, rather than an error or a wrapped value — exactly
when some element is unparsable respectively out of range of the target type;
on columns whose elements all parse / are in range they succeed. The
remaining 17 conversions are plain total maps (identity, widening casts,
formatting, zero-tests, 0/1 encodings). -/
theorem c1_convert_panic_characterization (ss : List String) (is : List Int)
    (us : List Nat) (qs : List ℚ) :
    ((vec_convert_text_to_unsigned ss).isSome = true ↔
        ∀ s ∈ ss, (parseU64 s).isSome = true) ∧
      ((vec_convert_text_to_signed ss).isSome = true ↔
        ∀ s ∈ ss, (parseI64 s).isSome = true) ∧
      ((vec_convert_text_to_boolean ss).isSome = true ↔
        ∀ s ∈ ss, (parseBool s).isSome = true) ∧
      ((vec_convert_text_to_float ss).isSome = true ↔
        ∀ s ∈ ss, (parseF64 s).isSome = true) ∧
      ((vec_convert_signed_to_unsigned is).isSome = true ↔ ∀ i ∈ is, 0 ≤ i) ∧
      ((vec_convert_unsigned_to_signed us).isSome = true ↔ ∀ u ∈ us, u < 2 ^ 63) ∧
      ((vec_convert_float_to_unsigned qs).isSome = true ↔
        ∀ q ∈ qs, 0 ≤ q ∧ q < 2 ^ 64) ∧
      ((vec_convert_float_to_signed qs).isSome = true ↔
        ∀ q ∈ qs, -(2 ^ 63) ≤ q ∧ q < 2 ^ 63) := by
  refine ⟨?_, ?_, ?_, ?_, ?_, ?_, ?_, ?_⟩
  · exact mapUnwrap_isSome_iff parseU64 ss
  · exact mapUnwrap_isSome_iff parseI64 ss
  · exact mapUnwrap_isSome_iff parseBool ss
  · exact mapUnwrap_isSome_iff parseF64 ss
  · rw [vec_convert_signed_to_unsigned, mapUnwrap_isSome_iff]
    exact forall₂_congr (fun i _ => i64_to_u64_isSome i)
  · rw [vec_convert_unsigned_to_signed, mapUnwrap_isSome_iff]
    exact forall₂_congr (fun u _ => u64_to_i64_isSome u)
  · rw [vec_convert_float_to_unsigned, mapUnwrap_isSome_iff]
    exact forall₂_congr (fun q _ => f64_to_u64_isSome q)
  · rw [vec_convert_float_to_signed, mapUnwrap_isSome_iff]
    exact forall₂_congr (fun q _ => f64_to_i64_isSome q)
/-! ## Bucket and store lemmas -/

theorem bktGet_bktPut {α : Type} (h : Bucket α) (k : String) (v : List α) (k2 : String) :
    bktGet (bktPut h k v) k2 = if k = k2 then some v else bktGet h k2 := by
  induction h with
  | nil =>
    by_cases hk : k = k2 <;> simp [bktPut, bktGet, hk]
  | cons p rest ih =>
    obtain ⟨k1, v1⟩ := p
    by_cases h1 : k1 = k
    · subst h1
      by_cases h2 : k1 = k2 <;> simp [bktPut, bktGet, h2]
    · by_cases h2 : k1 = k2
      · subst h2
        have : ¬k = k1 := fun he => h1 he.symm
        simp [bktPut, bktGet, h1, this]
      · simp [bktPut, bktGet, h1, h2, ih]

theorem bktContains_bktPut {α : Type} (h : Bucket α) (k : String) (v : List α) (k2 : String) :
    bktContains (bktPut h k v) k2 = if k = k2 then true else bktContains h k2 := by
  unfold bktContains
  rw [bktGet_bktPut]
  by_cases hk : k = k2 <;> simp [hk]

theorem bktGet_insert_value_ne {α : Type} (h : Bucket α) (k : String) (x : α) (k2 : String)
    (hne : k ≠ k2) : bktGet (insert_value h k x) k2 = bktGet h k2 := by
  unfold insert_value
  cases bktGet h k <;> rw [bktGet_bktPut] <;> simp [hne]

theorem bktContains_insert_value {α : Type} (h : Bucket α) (k : String) (x : α) (k2 : String) :
    bktContains (insert_value h k x) k2 = if k = k2 then true else bktContains h k2 := by
  unfold insert_value
  cases bktGet h k <;> rw [bktContains_bktPut]

theorem add_field_unsigned (ds : DataStore) (n : String) (ty : FieldType) :
    (ds.add_field n ty).unsigned = ds.unsigned := by
  unfold DataStore.add_field
  split <;> rfl

theorem add_field_signed (ds : DataStore) (n : String) (ty : FieldType) :
    (ds.add_field n ty).signed = ds.signed := by
  unfold DataStore.add_field
  split <;> rfl

theorem add_field_text (ds : DataStore) (n : String) (ty : FieldType) :
    (ds.add_field n ty).text = ds.text := by
  unfold DataStore.add_field
  split <;> rfl

theorem add_field_boolean (ds : DataStore) (n : String) (ty : FieldType) :
    (ds.add_field n ty).boolean = ds.boolean := by
  unfold DataStore.add_field
  split <;> rfl

theorem add_field_float (ds : DataStore) (n : String) (ty : FieldType) :
    (ds.add_field n ty).float = ds.float := by
  unfold DataStore.add_field
  split <;> rfl

/-- The `FieldType` bucket a column variant lives in. -/
def ColumnData.colTy : ColumnData → FieldType
  | .unsigned _ => .Unsigned
  | .signed _ => .Signed
  | .text _ => .Text
  | .boolean _ => .Boolean
  | .float _ => .Float

theorem merge_cd_getCol (ds : DataStore) (n : String) (cd : ColumnData) (ty2 : FieldType)
    (n2 : String) :
    ((ds.mergeColumnData n cd).1).getCol ty2 n2 =
      if ty2 = cd.colTy ∧ n = n2 then some cd else ds.getCol ty2 n2 := by
  cases cd <;> cases ty2 <;>
    simp only [DataStore.mergeColumnData, DataStore.merge_unsigned, DataStore.merge_signed,
      DataStore.merge_text, DataStore.merge_boolean, DataStore.merge_float, DataStore.getCol,
      ColumnData.colTy, add_field_unsigned, add_field_signed, add_field_text, add_field_boolean,
      add_field_float, bktGet_bktPut] <;>
    by_cases hn : n = n2 <;> simp [hn]

theorem merge_cd_err (ds : DataStore) (n : String) (cd : ColumnData) :
    (ds.mergeColumnData n cd).2 =
      if ds.bucketHas cd.colTy n then
        some (.dataFrame ("merging field " ++ n ++ " clobbered existing field"))
      else none := by
  cases cd <;>
    simp only [DataStore.mergeColumnData, DataStore.merge_unsigned, DataStore.merge_signed,
      DataStore.merge_text, DataStore.merge_boolean, DataStore.merge_float,
      DataStore.bucketHas, DataStore.getCol, ColumnData.colTy, add_field_unsigned,
      add_field_signed, add_field_text, add_field_boolean, add_field_float,
      Option.isSome_map] <;>
    split <;> simp_all

theorem merge_cd_bucketHas (ds : DataStore) (n : String) (cd : ColumnData) (ty2 : FieldType)
    (n2 : String) :
    ((ds.mergeColumnData n cd).1).bucketHas ty2 n2 =
      if ty2 = cd.colTy ∧ n = n2 then true else ds.bucketHas ty2 n2 := by
  unfold DataStore.bucketHas
  rw [merge_cd_getCol]
  by_cases hc : ty2 = cd.colTy ∧ n = n2 <;> simp [hc]
theorem getCol_colTy (ds : DataStore) (ty : FieldType) (n : String) (cd : ColumnData)
    (h : ds.getCol ty n = some cd) : cd.colTy = ty := by
  cases ty <;> simp only [DataStore.getCol] at h <;>
    (obtain ⟨v, hv, hcd⟩ := Option.map_eq_some'.mp h
     rw [← hcd]
     rfl)

theorem merge_go_cons (ds src : DataStore) (f : FieldInfo) (fs : List FieldInfo) :
    ds.merge_go src (f :: fs) =
      match ds.merge_field_step f.name f.ty src with
      | (ds1, some e) => (ds1, some e)
      | (ds1, none) => ds1.merge_go src fs := rfl

theorem merge_field_step_of_getCol (ds src : DataStore) (n : String) (ty : FieldType)
    (cd : ColumnData) (h : src.getCol ty n = some cd) :
    ds.merge_field_step n ty src = ds.mergeColumnData n cd := by
  unfold DataStore.merge_field_step
  rw [h]

theorem merge_go_getCol_frame (src : DataStore) (fs : List FieldInfo) (ds : DataStore)
    (ty : FieldType) (n : String) (h : ∀ f ∈ fs, f.name ≠ n) :
    ((ds.merge_go src fs).1).getCol ty n = ds.getCol ty n := by
  induction fs generalizing ds with
  | nil => rfl
  | cons f fs ih =>
    have hf : f.name ≠ n := h f (List.mem_cons_self f fs)
    have hrest : ∀ g ∈ fs, g.name ≠ n := fun g hg => h g (List.mem_cons_of_mem f hg)
    rw [merge_go_cons]
    cases hsrc : src.getCol f.ty f.name with
    | none =>
      unfold DataStore.merge_field_step
      rw [hsrc]
    | some cd =>
      rw [merge_field_step_of_getCol ds src f.name f.ty cd hsrc]
      cases hm : ds.mergeColumnData f.name cd with
      | mk ds1 e =>
        have hds1 : ds1.getCol ty n = ds.getCol ty n := by
          have hfr := merge_cd_getCol ds f.name cd ty n
          rw [hm] at hfr
          simpa [hf] using hfr
        cases e with
        | some err => exact hds1
        | none => exact (ih ds1 hrest).trans hds1

theorem merge_go_ok (src : DataStore) (fs : List FieldInfo) (ds : DataStore)
    (hwf : ∀ f ∈ fs, (src.getCol f.ty f.name).isSome = true)
    (hnodup : (fs.map FieldInfo.name).Nodup)
    (hdisj : ∀ f ∈ fs, ds.bucketHas f.ty f.name = false) :
    (ds.merge_go src fs).2 = none ∧
      ∀ f ∈ fs, ((ds.merge_go src fs).1).getCol f.ty f.name = src.getCol f.ty f.name := by
  induction fs generalizing ds with
  | nil => exact ⟨rfl, by simp⟩
  | cons f fs ih =>
    obtain ⟨cd, hsrc⟩ := Option.isSome_iff_exists.mp (hwf f (List.mem_cons_self f fs))
    have hty : cd.colTy = f.ty := getCol_colTy src f.ty f.name cd hsrc
    have hmap : (FieldInfo.name f :: fs.map FieldInfo.name).Nodup := by simpa using hnodup
    have hnd1 : f.name ∉ fs.map FieldInfo.name := (List.nodup_cons.mp hmap).1
    have hnd2 : (fs.map FieldInfo.name).Nodup := (List.nodup_cons.mp hmap).2
    cases hm : ds.mergeColumnData f.name cd with
    | mk ds1 e =>
      have he : e = none := by
        have herr := merge_cd_err ds f.name cd
        rw [hm, hty] at herr
        simpa [hdisj f (List.mem_cons_self f fs)] using herr
      subst he
      have hself : ds1.getCol f.ty f.name = some cd := by
        have hg := merge_cd_getCol ds f.name cd f.ty f.name
        rw [hm, hty] at hg
        simpa using hg
      have hdisj1 : ∀ g ∈ fs, ds1.bucketHas g.ty g.name = false := by
        intro g hg
        have hb := merge_cd_bucketHas ds f.name cd g.ty g.name
        rw [hm] at hb
        have hne : f.name ≠ g.name := by
          intro hcontra
          exact hnd1 (by rw [hcontra]; exact List.mem_map_of_mem FieldInfo.name hg)
        simp only [hb, hne, and_false, if_false]
        exact hdisj g (List.mem_cons_of_mem f hg)
      have hih := ih ds1 (fun g hg => hwf g (List.mem_cons_of_mem f hg)) hnd2 hdisj1
      have hred : ds.merge_go src (f :: fs) = ds1.merge_go src fs := by
        rw [merge_go_cons, merge_field_step_of_getCol ds src f.name f.ty cd hsrc, hm]
      refine ⟨by rw [hred]; exact hih.1, ?_⟩
      intro g hg
      rcases List.mem_cons.mp hg with hgf | hgfs
      · subst hgf
        rw [hred]
        have hframe : ((ds1.merge_go src fs).1).getCol g.ty g.name =
            ds1.getCol g.ty g.name := by
          refine merge_go_getCol_frame src fs ds1 g.ty g.name ?_
          intro g2 hg2 hcontra
          exact hnd1 (by rw [← hcontra]; exact List.mem_map_of_mem FieldInfo.name hg2)
        rw [hframe, hself, hsrc]
      · rw [hred]
        exact hih.2 g hgfs
theorem merge_go_first_collision (src : DataStore) (pre : List FieldInfo) (f : FieldInfo)
    (post : List FieldInfo) (ds : DataStore)
    (hwf : ∀ g ∈ pre, (src.getCol g.ty g.name).isSome = true)
    (hfwf : (src.getCol f.ty f.name).isSome = true)
    (hnodup : ((pre ++ f :: post).map FieldInfo.name).Nodup)
    (hdisj : ∀ g ∈ pre, ds.bucketHas g.ty g.name = false)
    (hcol : ds.bucketHas f.ty f.name = true) :
    (ds.merge_go src (pre ++ f :: post)).2 =
        some (.dataFrame ("merging field " ++ f.name ++ " clobbered existing field")) ∧
      ((ds.merge_go src (pre ++ f :: post)).1).getCol f.ty f.name = src.getCol f.ty f.name ∧
      ∀ g ∈ pre, ((ds.merge_go src (pre ++ f :: post)).1).getCol g.ty g.name =
        src.getCol g.ty g.name := by
  induction pre generalizing ds with
  | nil =>
    obtain ⟨cd, hsrc⟩ := Option.isSome_iff_exists.mp hfwf
    have hty : cd.colTy = f.ty := getCol_colTy src f.ty f.name cd hsrc
    cases hm : ds.mergeColumnData f.name cd with
    | mk ds1 e =>
      have he : e = some (.dataFrame ("merging field " ++ f.name
          ++ " clobbered existing field")) := by
        have herr := merge_cd_err ds f.name cd
        rw [hm, hty] at herr
        simpa [hcol] using herr
      subst he
      have hself : ds1.getCol f.ty f.name = some cd := by
        have hg := merge_cd_getCol ds f.name cd f.ty f.name
        rw [hm, hty] at hg
        simpa using hg
      have hred : ds.merge_go src ([] ++ f :: post) =
          (ds1, some (.dataFrame ("merging field " ++ f.name
            ++ " clobbered existing field"))) := by
        rw [List.nil_append, merge_go_cons,
          merge_field_step_of_getCol ds src f.name f.ty cd hsrc, hm]
      rw [hred]
      exact ⟨rfl, by rw [hself, hsrc], by simp⟩
  | cons g pre ih =>
    obtain ⟨cd, hsrc⟩ := Option.isSome_iff_exists.mp (hwf g (List.mem_cons_self g pre))
    have hty : cd.colTy = g.ty := getCol_colTy src g.ty g.name cd hsrc
    have hmap : (FieldInfo.name g :: (pre ++ f :: post).map FieldInfo.name).Nodup := by
      simpa using hnodup
    have hnd1 : g.name ∉ (pre ++ f :: post).map FieldInfo.name := (List.nodup_cons.mp hmap).1
    have hnd2 : ((pre ++ f :: post).map FieldInfo.name).Nodup := (List.nodup_cons.mp hmap).2
    cases hm : ds.mergeColumnData g.name cd with
    | mk ds1 e =>
      have he : e = none := by
        have herr := merge_cd_err ds g.name cd
        rw [hm, hty] at herr
        simpa [hdisj g (List.mem_cons_self g pre)] using herr
      subst he
      have hself : ds1.getCol g.ty g.name = some cd := by
        have hg := merge_cd_getCol ds g.name cd g.ty g.name
        rw [hm, hty] at hg
        simpa using hg
      have hgf : g.name ≠ f.name := by
        intro hcontra
        refine hnd1 ?_
        rw [hcontra]
        exact List.mem_map_of_mem FieldInfo.name (by simp)
      have hdisj1 : ∀ g2 ∈ pre, ds1.bucketHas g2.ty g2.name = false := by
        intro g2 hg2
        have hb := merge_cd_bucketHas ds g.name cd g2.ty g2.name
        rw [hm] at hb
        have hne : g.name ≠ g2.name := by
          intro hcontra
          refine hnd1 ?_
          rw [hcontra]
          exact List.mem_map_of_mem FieldInfo.name (by simp [hg2])
        simp only [hb, hne, and_false, if_false]
        exact hdisj g2 (List.mem_cons_of_mem g hg2)
      have hcol1 : ds1.bucketHas f.ty f.name = true := by
        have hb := merge_cd_bucketHas ds g.name cd f.ty f.name
        rw [hm] at hb
        simp only [hb, hgf, and_false, if_false]
        exact hcol
      have hih := ih ds1 (fun g2 hg2 => hwf g2 (List.mem_cons_of_mem g hg2)) hnd2 hdisj1 hcol1
      have hred : ds.merge_go src ((g :: pre) ++ f :: post) =
          ds1.merge_go src (pre ++ f :: post) := by
        rw [List.cons_append, merge_go_cons,
          merge_field_step_of_getCol ds src g.name g.ty cd hsrc, hm]
      refine ⟨by rw [hred]; exact hih.1, by rw [hred]; exact hih.2.1, ?_⟩
      intro g2 hg2
      rcases List.mem_cons.mp hg2 with hgg | hgpre
      · subst hgg
        rw [hred]
        have hframe : ((ds1.merge_go src (pre ++ f :: post)).1).getCol g2.ty g2.name =
            ds1.getCol g2.ty g2.name := by
          refine merge_go_getCol_frame src (pre ++ f :: post) ds1 g2.ty g2.name ?_
          intro g3 hg3 hcontra
          exact hnd1 (by rw [← hcontra]; exact List.mem_map_of_mem FieldInfo.name hg3)
        rw [hframe, hself, hsrc]
      · rw [hred]
        exact hih.2.2 g2 hgpre
/-! ## C2: merge semantics -/

/-- A destination store holding the unsigned column `a = [1]`, built by public
operations. -/
def c2SelfStore : DataStore := (DataStore.empty.merge_unsigned "a" [1]).1

/-- A source store holding unsigned columns `b = [2]` then `a = [3]`. -/
def c2OtherStore : DataStore :=
  ((DataStore.empty.merge_unsigned "b" [2]).1.merge_unsigned "a" [3]).1

/-- A destination store holding the text column `a = ["x"]`. -/
def c2TextStore : DataStore := (DataStore.empty.merge_text "a" ["x"]).1

/-- A source store holding the unsigned column `a = [3]`. -/
def c2CrossStore : DataStore := (DataStore.empty.merge_unsigned "a" [3]).1

/-- **C2 counterexample.** Merging `{b = [2], a = [3]}` into `{a = [1]}` does
abort with the duplicate-field error, but the destination is *not* left
unchanged: the colliding column `a` has been overwritten with `[3]`
(`HashMap::insert` replaces before the error is constructed — the error
message itself says "clobbered existing field") and the earlier column `b`
stays merged (partial merge). Moreover a *cross-type* name collision (text
`a` vs. unsigned `a`) is not detected at all: that merge succeeds. -/
theorem c2_counterexample :
    ((c2SelfStore.merge c2OtherStore).2).isSome = true ∧
      bktGet c2SelfStore.unsigned "a" = some [1] ∧
      bktGet (c2SelfStore.merge c2OtherStore).1.unsigned "a" = some [3] ∧
      bktGet (c2SelfStore.merge c2OtherStore).1.unsigned "b" = some [2] ∧
      (c2TextStore.merge c2CrossStore).2 = none := by
  decide

/-- **C2 (amended).** `merge` installs every column of the source when no
source field name collides with a same-type column of the destination (and
the source is well-formed with distinct field names); on a same-type
collision it aborts at the first colliding field with the
clobbered-field (`DuplicateField`) error, but the columns merged before the
collision remain installed and the colliding source column overwrites the
destination's column — the destination is not left unchanged, and cross-type
name collisions are not detected. -/
theorem c2_merge_characterization (ds other : DataStore) :
    ((∀ f ∈ other.fields, (other.getCol f.ty f.name).isSome = true) →
      (other.fields.map FieldInfo.name).Nodup →
      (∀ f ∈ other.fields, ds.bucketHas f.ty f.name = false) →
      (ds.merge other).2 = none ∧
        ∀ f ∈ other.fields, ((ds.merge other).1).getCol f.ty f.name =
          other.getCol f.ty f.name) ∧
    (∀ pre f post, other.fields = pre ++ f :: post →
      (∀ g ∈ pre, (other.getCol g.ty g.name).isSome = true) →
      (other.getCol f.ty f.name).isSome = true →
      (other.fields.map FieldInfo.name).Nodup →
      (∀ g ∈ pre, ds.bucketHas g.ty g.name = false) →
      ds.bucketHas f.ty f.name = true →
      (ds.merge other).2 = some (.dataFrame ("merging field " ++ f.name
          ++ " clobbered existing field")) ∧
        ((ds.merge other).1).getCol f.ty f.name = other.getCol f.ty f.name ∧
        ∀ g ∈ pre, ((ds.merge other).1).getCol g.ty g.name =
          other.getCol g.ty g.name) := by
  constructor
  · intro hwf hnodup hdisj
    exact merge_go_ok other other.fields ds hwf hnodup hdisj
  · intro pre f post heq hwf hfwf hnodup hdisj hcol
    unfold DataStore.merge
    rw [heq]
    rw [heq] at hnodup
    exact merge_go_first_collision other pre f post ds hwf hfwf hnodup hdisj hcol

/-- Witness for C2 at concrete stores: a collision-free merge succeeds, and
the clobbering merge of `c2OtherStore` into `c2SelfStore` errors at field
`a`. -/
theorem c2_witness :
    (DataStore.empty.merge c2OtherStore).2 = none ∧
      (c2SelfStore.merge c2OtherStore).2 =
        some (.dataFrame ("merging field " ++ "a" ++ " clobbered existing field")) := by
  constructor
  · exact ((c2_merge_characterization DataStore.empty c2OtherStore).1
      (by decide) (by decide) (by decide)).1
  · exact ((c2_merge_characterization c2SelfStore c2OtherStore).2
      [⟨0, "b", .Unsigned⟩] ⟨1, "a", .Unsigned⟩ [] (by decide) (by decide) (by decide)
      (by decide) (by decide) (by decide)).1
/-! ## C3: bucket uniqueness -/

theorem isSome_bktGet_insert_value_self {α : Type} (h : Bucket α) (k : String) (x : α) :
    (bktGet (insert_value h k x) k).isSome = true := by
  have hb := bktContains_insert_value h k x k
  simpa [bktContains] using hb

theorem insert_unsigned_bucketHas (ds : DataStore) (n : String) (v : Nat) (ty2 : FieldType)
    (n2 : String) :
    (ds.insert_unsigned n v).bucketHas ty2 n2 =
      if ty2 = FieldType.Unsigned ∧ n = n2 then true else ds.bucketHas ty2 n2 := by
  cases ty2 <;>
    simp only [DataStore.insert_unsigned, DataStore.bucketHas, DataStore.getCol,
      add_field_unsigned, add_field_signed, add_field_text, add_field_boolean,
      add_field_float, Option.isSome_map, bktContains_insert_value, bktContains] <;>
    by_cases hn : n = n2 <;>
      simp [hn, bktGet_insert_value_ne, isSome_bktGet_insert_value_self]

theorem insert_signed_bucketHas (ds : DataStore) (n : String) (v : Int) (ty2 : FieldType)
    (n2 : String) :
    (ds.insert_signed n v).bucketHas ty2 n2 =
      if ty2 = FieldType.Signed ∧ n = n2 then true else ds.bucketHas ty2 n2 := by
  cases ty2 <;>
    simp only [DataStore.insert_signed, DataStore.bucketHas, DataStore.getCol,
      add_field_unsigned, add_field_signed, add_field_text, add_field_boolean,
      add_field_float, Option.isSome_map, bktContains_insert_value, bktContains] <;>
    by_cases hn : n = n2 <;>
      simp [hn, bktGet_insert_value_ne, isSome_bktGet_insert_value_self]

theorem insert_text_bucketHas (ds : DataStore) (n : String) (v : String) (ty2 : FieldType)
    (n2 : String) :
    (ds.insert_text n v).bucketHas ty2 n2 =
      if ty2 = FieldType.Text ∧ n = n2 then true else ds.bucketHas ty2 n2 := by
  cases ty2 <;>
    simp only [DataStore.insert_text, DataStore.bucketHas, DataStore.getCol,
      add_field_unsigned, add_field_signed, add_field_text, add_field_boolean,
      add_field_float, Option.isSome_map, bktContains_insert_value, bktContains] <;>
    by_cases hn : n = n2 <;>
      simp [hn, bktGet_insert_value_ne, isSome_bktGet_insert_value_self]

theorem insert_boolean_bucketHas (ds : DataStore) (n : String) (v : Bool) (ty2 : FieldType)
    (n2 : String) :
    (ds.insert_boolean n v).bucketHas ty2 n2 =
      if ty2 = FieldType.Boolean ∧ n = n2 then true else ds.bucketHas ty2 n2 := by
  cases ty2 <;>
    simp only [DataStore.insert_boolean, DataStore.bucketHas, DataStore.getCol,
      add_field_unsigned, add_field_signed, add_field_text, add_field_boolean,
      add_field_float, Option.isSome_map, bktContains_insert_value, bktContains] <;>
    by_cases hn : n = n2 <;>
      simp [hn, bktGet_insert_value_ne, isSome_bktGet_insert_value_self]

theorem insert_float_bucketHas (ds : DataStore) (n : String) (v : ℚ) (ty2 : FieldType)
    (n2 : String) :
    (ds.insert_float n v).bucketHas ty2 n2 =
      if ty2 = FieldType.Float ∧ n = n2 then true else ds.bucketHas ty2 n2 := by
  cases ty2 <;>
    simp only [DataStore.insert_float, DataStore.bucketHas, DataStore.getCol,
      add_field_unsigned, add_field_signed, add_field_text, add_field_boolean,
      add_field_float, Option.isSome_map, bktContains_insert_value, bktContains] <;>
    by_cases hn : n = n2 <;>
      simp [hn, bktGet_insert_value_ne, isSome_bktGet_insert_value_self]

/-- In how many of the five per-type buckets does `k` occur. -/
def bucketCountAcross (ds : DataStore) (k : String) : Nat :=
  (if ds.bucketHas .Unsigned k then 1 else 0) +
    (if ds.bucketHas .Signed k then 1 else 0) +
    (if ds.bucketHas .Text k then 1 else 0) +
    (if ds.bucketHas .Boolean k then 1 else 0) +
    (if ds.bucketHas .Float k then 1 else 0)

/-- The invariant of §3: every field name lives in at most one type bucket. -/
def BucketUnique (ds : DataStore) : Prop :=
  ∀ k, bucketCountAcross ds k ≤ 1

theorem BucketUnique_update (ds ds1 : DataStore) (n : String) (ty0 : FieldType)
    (hlaw : ∀ ty2 n2, ds1.bucketHas ty2 n2 =
      if ty2 = ty0 ∧ n = n2 then true else ds.bucketHas ty2 n2)
    (hU : BucketUnique ds)
    (hfresh : ∀ ty2, ty2 ≠ ty0 → ds.bucketHas ty2 n = false) :
    BucketUnique ds1 := by
  intro k
  by_cases hk : n = k
  · subst hk
    have hterm : ∀ ty2, ty2 ≠ ty0 → ds1.bucketHas ty2 n = false := by
      intro ty2 hne
      rw [hlaw]
      simp only [hne, false_and, if_false]
      exact hfresh ty2 hne
    have hty0 : ds1.bucketHas ty0 n = true := by
      rw [hlaw]
      simp
    cases ty0 <;>
      simp [bucketCountAcross, hty0, hterm FieldType.Unsigned, hterm FieldType.Signed,
        hterm FieldType.Text, hterm FieldType.Boolean, hterm FieldType.Float]
  · have hcount : bucketCountAcross ds1 k = bucketCountAcross ds k := by
      simp [bucketCountAcross, hlaw, hk]
    rw [hcount]
    exact hU k
theorem merge_go_BucketUnique (src : DataStore) (fs : List FieldInfo) (ds : DataStore)
    (hU : BucketUnique ds)
    (hnodup : (fs.map FieldInfo.name).Nodup)
    (hfresh : ∀ f ∈ fs, ∀ ty2, ty2 ≠ f.ty → ds.bucketHas ty2 f.name = false) :
    BucketUnique (ds.merge_go src fs).1 := by
  induction fs generalizing ds with
  | nil => exact hU
  | cons f fs ih =>
    have hmap : (FieldInfo.name f :: fs.map FieldInfo.name).Nodup := by simpa using hnodup
    have hnd1 : f.name ∉ fs.map FieldInfo.name := (List.nodup_cons.mp hmap).1
    have hnd2 : (fs.map FieldInfo.name).Nodup := (List.nodup_cons.mp hmap).2
    rw [merge_go_cons]
    cases hsrc : src.getCol f.ty f.name with
    | none =>
      unfold DataStore.merge_field_step
      rw [hsrc]
      exact hU
    | some cd =>
      rw [merge_field_step_of_getCol ds src f.name f.ty cd hsrc]
      have hty : cd.colTy = f.ty := getCol_colTy src f.ty f.name cd hsrc
      cases hm : ds.mergeColumnData f.name cd with
      | mk ds1 e =>
        have hU1 : BucketUnique ds1 := by
          have := BucketUnique_update ds (ds.mergeColumnData f.name cd).1 f.name cd.colTy
            (merge_cd_bucketHas ds f.name cd) hU
            (by rw [hty]; exact hfresh f (List.mem_cons_self f fs))
          rwa [hm] at this
        cases e with
        | some err => exact hU1
        | none =>
          refine ih ds1 hU1 hnd2 ?_
          intro g hg ty2 hne
          have hb := merge_cd_bucketHas ds f.name cd ty2 g.name
          rw [hm] at hb
          have hnefg : f.name ≠ g.name := by
            intro hcontra
            exact hnd1 (by rw [hcontra]; exact List.mem_map_of_mem FieldInfo.name hg)
          simp only [hb, hnefg, and_false, if_false]
          exact hfresh g (List.mem_cons_of_mem f hg) ty2 hne

theorem BucketUnique_empty : BucketUnique DataStore.empty := by
  intro k
  show (0 : Nat) ≤ 1
  decide

/-- **C3 counterexample.** Starting from a store holding only the text column
`a`, inserting a parsed *unsigned* value under the same name `a` succeeds
(no error is raised) and leaves `a` present in two buckets — text and
unsigned — violating the one-bucket-per-name invariant the claim says every
insert preserves. -/
theorem c3_counterexample :
    BucketUnique (DataStore.empty.insert_text "a" "x") ∧
      ((DataStore.empty.insert_text "a" "x").insert "a" .Unsigned "3").toOption =
        some ((DataStore.empty.insert_text "a" "x").insert_unsigned "a" 3) ∧
      bucketCountAcross ((DataStore.empty.insert_text "a" "x").insert_unsigned "a" 3) "a"
        = 2 := by
  refine ⟨?_, by decide, by decide⟩
  refine BucketUnique_update DataStore.empty _ "a" .Text
    (insert_text_bucketHas DataStore.empty "a" "x") BucketUnique_empty ?_
  intro ty2 _
  cases ty2 <;> rfl

/-- **C3 (amended).** `insert` (of a parsed value), single-column merge and
whole-store merge preserve the one-bucket-per-name invariant *provided* the
inserted/merged name is not already present in a bucket of a different type
(for a whole-store merge: provided no source field name sits in a
differently-typed bucket of the destination, with distinct source field
names). A cross-type name collision is not rejected by the code and adds the
name to a second bucket, breaking the invariant (see the counterexample);
same-type collisions — including the clobbering merge error path — keep it. -/
theorem c3_bucket_uniqueness_preservation (ds : DataStore) (n : String) (ty : FieldType)
    (s : String) (cd : ColumnData) (other : DataStore) :
    (BucketUnique ds → (∀ ty2, ty2 ≠ ty → ds.bucketHas ty2 n = false) →
      ∀ ds1, ds.insert n ty s = .ok ds1 → BucketUnique ds1) ∧
    (BucketUnique ds → (∀ ty2, ty2 ≠ cd.colTy → ds.bucketHas ty2 n = false) →
      BucketUnique (ds.mergeColumnData n cd).1) ∧
    (BucketUnique ds → ((other.fields.map FieldInfo.name).Nodup) →
      (∀ f ∈ other.fields, ∀ ty2, ty2 ≠ f.ty → ds.bucketHas ty2 f.name = false) →
      BucketUnique (ds.merge other).1) := by
  refine ⟨?_, ?_, ?_⟩
  · intro hU hfresh ds1 hok
    cases ty
    all_goals simp only [DataStore.insert] at hok
    · cases hp : parseU64 s with
      | none => rw [hp] at hok; exact absurd hok (by simp)
      | some v =>
        rw [hp] at hok
        have hds1 : ds1 = ds.insert_unsigned n v := by
          cases hok
          rfl
        subst hds1
        exact BucketUnique_update ds _ n .Unsigned (insert_unsigned_bucketHas ds n v) hU hfresh
    · cases hp : parseI64 s with
      | none => rw [hp] at hok; exact absurd hok (by simp)
      | some v =>
        rw [hp] at hok
        have hds1 : ds1 = ds.insert_signed n v := by
          cases hok
          rfl
        subst hds1
        exact BucketUnique_update ds _ n .Signed (insert_signed_bucketHas ds n v) hU hfresh
    · have hds1 : ds1 = ds.insert_text n s := by
        cases hok
        rfl
      subst hds1
      exact BucketUnique_update ds _ n .Text (insert_text_bucketHas ds n s) hU hfresh
    · cases hp : parseBool s with
      | none => rw [hp] at hok; exact absurd hok (by simp)
      | some v =>
        rw [hp] at hok
        have hds1 : ds1 = ds.insert_boolean n v := by
          cases hok
          rfl
        subst hds1
        exact BucketUnique_update ds _ n .Boolean (insert_boolean_bucketHas ds n v) hU hfresh
    · cases hp : parseF64 s with
      | none => rw [hp] at hok; exact absurd hok (by simp)
      | some v =>
        rw [hp] at hok
        have hds1 : ds1 = ds.insert_float n v := by
          cases hok
          rfl
        subst hds1
        exact BucketUnique_update ds _ n .Float (insert_float_bucketHas ds n v) hU hfresh
  · intro hU hfresh
    exact BucketUnique_update ds _ n cd.colTy (merge_cd_bucketHas ds n cd) hU hfresh
  · intro hU hnodup hfresh
    exact merge_go_BucketUnique other other.fields ds hU hnodup hfresh
/-- A single-column source store for the C3 witness. -/
def c3MergeSrcStore : DataStore := (DataStore.empty.merge_unsigned "m" [5]).1

/-- Witness for C3: a fresh-name parsed insert into the empty store and a
fresh-name whole-store merge both preserve the invariant. -/
theorem c3_witness :
    BucketUnique (DataStore.empty.insert_unsigned "a" 3) ∧
      BucketUnique (DataStore.empty.merge c3MergeSrcStore).1 := by
  constructor
  · exact (c3_bucket_uniqueness_preservation DataStore.empty "a" .Unsigned "3"
      (.unsigned []) DataStore.empty).1 BucketUnique_empty
      (by intro ty2 _; cases ty2 <;> rfl)
      (DataStore.empty.insert_unsigned "a" 3) rfl
  · exact (c3_bucket_uniqueness_preservation DataStore.empty "a" .Unsigned "3"
      (.unsigned []) c3MergeSrcStore).2.2 BucketUnique_empty (by decide)
      (by intro f hf ty2 _; cases ty2 <;> rfl)
/-! ## C5: homogeneity -/

/-- Length compatibility of the chained homogeneity check: a zero (absent or
empty) common length is compatible with anything. -/
def compatLen (a b : Nat) : Prop :=
  a = 0 ∨ b = 0 ∨ a = b

instance (a b : Nat) : Decidable (compatLen a b) := by
  unfold compatLen
  infer_instance

/-- The combining closure of `is_hm_homogeneous_with`, with `v` the incoming
value and `x` the bucket's own common length. -/
def combineLen (v x : Nat) : Option Nat :=
  if x = 0 ∧ v ≠ 0 then some v
  else if (v = 0 ∧ x ≠ 0) ∨ x = v then some x
  else none

theorem hm_with_combine {α : Type} (h : Bucket α) (v : Nat) :
    is_hm_homogeneous_with h v = (is_hm_homogeneous h).bind (combineLen v) := rfl

theorem combineLen_eq (v x : Nat) :
    combineLen v x = if compatLen v x then some (if x = 0 then v else x) else none := by
  unfold combineLen compatLen
  split_ifs <;> first | rfl | omega | (congr 1; omega)

theorem combineLen_some (v x w : Nat) (h : combineLen v x = some w) :
    compatLen v x ∧ w = (if x = 0 then v else x) := by
  rw [combineLen_eq] at h
  by_cases hc : compatLen v x
  · rw [if_pos hc] at h
    exact ⟨hc, (Option.some.injEq _ _ ▸ h).symm⟩
  · rw [if_neg hc] at h
    cases h

theorem combineLen_of_compat (v x : Nat) (h : compatLen v x) :
    combineLen v x = some (if x = 0 then v else x) := by
  rw [combineLen_eq, if_pos h]

theorem pairwise_compat_shift (v x : Nat) (xs : List Nat) :
    List.Pairwise compatLen (v :: x :: xs) ↔
      compatLen v x ∧ List.Pairwise compatLen ((if x = 0 then v else x) :: xs) := by
  constructor
  · intro h
    rw [List.pairwise_cons] at h
    obtain ⟨hv, hx⟩ := h
    rw [List.pairwise_cons] at hx
    obtain ⟨hxall, hxs⟩ := hx
    refine ⟨hv x (List.mem_cons_self x xs), ?_⟩
    rw [List.pairwise_cons]
    refine ⟨?_, hxs⟩
    intro y hy
    by_cases hx0 : x = 0
    · simpa [hx0] using hv y (List.mem_cons_of_mem x hy)
    · simpa [hx0] using hxall y hy
  · rintro ⟨hvx, h⟩
    rw [List.pairwise_cons] at h
    obtain ⟨hall, hxs⟩ := h
    rw [List.pairwise_cons]
    constructor
    · intro y hy
      rcases List.mem_cons.mp hy with rfl | hy2
      · exact hvx
      · by_cases hx0 : x = 0
        · have hvy := hall y hy2
          simpa [hx0] using hvy
        · have hxy := hall y hy2
          rw [if_neg hx0] at hxy
          unfold compatLen at hvx hxy ⊢
          omega
    · rw [List.pairwise_cons]
      refine ⟨?_, hxs⟩
      intro y hy
      have hwy := hall y hy
      by_cases hx0 : x = 0
      · rw [if_pos hx0] at hwy
        unfold compatLen at hwy ⊢
        omega
      · rwa [if_neg hx0] at hwy

theorem pairwise5_iff (u s t b f : Nat) :
    List.Pairwise compatLen [u, s, t, b, f] ↔
      compatLen u s ∧
      compatLen (if s = 0 then u else s) t ∧
      compatLen (if t = 0 then (if s = 0 then u else s) else t) b ∧
      compatLen (if b = 0 then (if t = 0 then (if s = 0 then u else s) else t) else b) f := by
  rw [pairwise_compat_shift, pairwise_compat_shift, pairwise_compat_shift,
    pairwise_compat_shift]
  simp
/-- Lengths of every column in the store, across all five buckets. -/
def allColumnLengths (ds : DataStore) : List Nat :=
  ds.unsigned.map (fun p => p.2.length) ++ ds.signed.map (fun p => p.2.length) ++
    ds.text.map (fun p => p.2.length) ++ ds.boolean.map (fun p => p.2.length) ++
    ds.float.map (fun p => p.2.length)

/-- The claim's predicate: all non-empty columns of the store share one
length. -/
def nonEmptyColumnsShareLength (ds : DataStore) : Bool :=
  match (allColumnLengths ds).filter (fun n => n != 0) with
  | [] => true
  | n :: rest => rest.all (fun m => m == n)

/-- A store with an empty unsigned column `a` next to the two-element
unsigned column `b`, built by public merges (both return `Ok`). -/
def c5Store : DataStore :=
  ((DataStore.empty.merge_unsigned "a" []).1.merge_unsigned "b" [1, 2]).1

/-- **C5 counterexample.** In `c5Store` every *non-empty* column (only
`b = [1,2]`) trivially shares one length, yet `is_homogeneous()` returns
`false`: inside a single type bucket a zero-length column is compared
directly against the bucket's other lengths, so an empty column next to a
non-empty one fails the check (the zero-is-compatible rule applies only
*between* buckets). -/
theorem c5_counterexample :
    nonEmptyColumnsShareLength c5Store = true ∧
      c5Store.is_homogeneous = false ∧
      (DataStore.empty.merge_unsigned "a" []).2 = none ∧
      ((DataStore.empty.merge_unsigned "a" []).1.merge_unsigned "b" [1, 2]).2 = none := by
  decide

/-- **C5 (amended).** `is_homogeneous()` returns true iff *each of the five
type buckets* is internally uniform (all its columns share one length, an
empty bucket counting as length 0) and the per-bucket uniform lengths are
pairwise compatible, zero being compatible with everything. Equivalently:
all non-empty columns share one length *and* no bucket mixes zero-length and
non-zero-length columns. The empty store is homogeneous. -/
theorem c5_is_homogeneous_characterization :
    DataStore.empty.is_homogeneous = true ∧
      ∀ ds : DataStore, ds.is_homogeneous = true ↔
        ∃ u s t b f, is_hm_homogeneous ds.unsigned = some u ∧
          is_hm_homogeneous ds.signed = some s ∧
          is_hm_homogeneous ds.text = some t ∧
          is_hm_homogeneous ds.boolean = some b ∧
          is_hm_homogeneous ds.float = some f ∧
          List.Pairwise compatLen [u, s, t, b, f] := by
  refine ⟨rfl, ?_⟩
  intro ds
  unfold DataStore.is_homogeneous
  simp only [hm_with_combine]
  constructor
  · intro h
    obtain ⟨r, hr⟩ := Option.isSome_iff_exists.mp h
    obtain ⟨u, hu, h1⟩ := Option.bind_eq_some.mp hr
    obtain ⟨x2, hx2, h2⟩ := Option.bind_eq_some.mp h1
    obtain ⟨s, hs, hcs⟩ := Option.bind_eq_some.mp hx2
    obtain ⟨hcus, hx2v⟩ := combineLen_some u s x2 hcs
    obtain ⟨x3, hx3, h3⟩ := Option.bind_eq_some.mp h2
    obtain ⟨t, ht, hct⟩ := Option.bind_eq_some.mp hx3
    obtain ⟨hc2, hx3v⟩ := combineLen_some x2 t x3 hct
    obtain ⟨x4, hx4, h4⟩ := Option.bind_eq_some.mp h3
    obtain ⟨b, hb, hcb⟩ := Option.bind_eq_some.mp hx4
    obtain ⟨hc3, hx4v⟩ := combineLen_some x3 b x4 hcb
    obtain ⟨f, hf, hcf⟩ := Option.bind_eq_some.mp h4
    obtain ⟨hc4, _⟩ := combineLen_some x4 f r hcf
    subst hx2v
    subst hx3v
    subst hx4v
    refine ⟨u, s, t, b, f, hu, hs, ht, hb, hf, ?_⟩
    rw [pairwise5_iff]
    exact ⟨hcus, hc2, hc3, hc4⟩
  · rintro ⟨u, s, t, b, f, hu, hs, ht, hb, hf, hpw⟩
    rw [pairwise5_iff] at hpw
    obtain ⟨h1, h2, h3, h4⟩ := hpw
    rw [hu, hs, ht, hb, hf]
    simp only [Option.some_bind]
    rw [combineLen_of_compat u s h1]
    simp only [Option.some_bind]
    rw [combineLen_of_compat _ t h2]
    simp only [Option.some_bind]
    rw [combineLen_of_compat _ b h3]
    simp only [Option.some_bind]
    rw [combineLen_of_compat _ f h4]
    rfl
/-! ## C10: the Normalize variance assertion -/

/-- **C10.** The variance computation used by the Normalize transform first
returns `0` for columns with fewer than two values — before the assertion —
and otherwise asserts `correction != n`: with a configured
`sample_stdev_correction` equal to the column length the assertion fails
(a panic, modelled as `none`), instead of an error result. -/
theorem c10_variance_assertion (cfg : NormalizeConfig) (v : List ℚ) (mu : ℚ) :
    (2 ≤ v.length →
      (varianceQ v mu cfg.sampleStdevCorrection = none ↔
        cfg.sampleStdevCorrection = (v.length : ℚ))) ∧
    (v.length < 2 → varianceQ v mu cfg.sampleStdevCorrection = some 0) := by
  constructor
  · intro h
    unfold varianceQ
    rw [if_neg (by omega)]
    by_cases hc : cfg.sampleStdevCorrection = (v.length : ℚ)
    · simp [hc]
    · simp [hc]
  · intro h
    unfold varianceQ
    rw [if_pos h]

/-- Witness for C10: correction `2` on a two-element column panics the
assertion; a one-element column yields variance `0` regardless. -/
theorem c10_witness :
    2 ≤ ([1, 2] : List ℚ).length ∧
      varianceQ [1, 2] 0 (NormalizeConfig.sampleStdevCorrection ⟨some 2⟩) = none ∧
      varianceQ [(1 : ℚ)] 0 (NormalizeConfig.sampleStdevCorrection ⟨some 2⟩) = some 0 := by
  refine ⟨by decide, ?_, ?_⟩
  · exact ((c10_variance_assertion ⟨some 2⟩ [1, 2] 0).1 (by decide)).mpr
      (by norm_num [NormalizeConfig.sampleStdevCorrection])
  · exact (c10_variance_assertion ⟨some 2⟩ [1] 0).2 (by decide)

/-! ## C7: Scale's domain comes from the data -/

theorem foldl_max_bounds (a : ℚ) (xs : List ℚ) :
    a ≤ xs.foldl max a ∧ ∀ x ∈ xs, x ≤ xs.foldl max a := by
  induction xs generalizing a with
  | nil => exact ⟨le_refl a, by simp⟩
  | cons y ys ih =>
    obtain ⟨h1, h2⟩ := ih (max a y)
    refine ⟨le_trans (le_max_left a y) h1, ?_⟩
    intro x hx
    rcases List.mem_cons.mp hx with rfl | hx2
    · exact le_trans (le_max_right a x) h1
    · exact h2 x hx2

theorem foldl_max_mem (a : ℚ) (xs : List ℚ) :
    xs.foldl max a = a ∨ xs.foldl max a ∈ xs := by
  induction xs generalizing a with
  | nil => exact Or.inl rfl
  | cons y ys ih =>
    rcases ih (max a y) with h | h
    · rcases max_choice a y with hm | hm
      · exact Or.inl (by rw [List.foldl_cons, h, hm])
      · refine Or.inr ?_
        rw [List.foldl_cons, h, hm]
        exact List.mem_cons_self y ys
    · exact Or.inr (List.mem_cons_of_mem y h)

theorem foldl_min_bounds (a : ℚ) (xs : List ℚ) :
    xs.foldl min a ≤ a ∧ ∀ x ∈ xs, xs.foldl min a ≤ x := by
  induction xs generalizing a with
  | nil => exact ⟨le_refl a, by simp⟩
  | cons y ys ih =>
    obtain ⟨h1, h2⟩ := ih (min a y)
    refine ⟨le_trans h1 (min_le_left a y), ?_⟩
    intro x hx
    rcases List.mem_cons.mp hx with rfl | hx2
    · exact le_trans h1 (min_le_right a x)
    · exact h2 x hx2

theorem foldl_min_mem (a : ℚ) (xs : List ℚ) :
    xs.foldl min a = a ∨ xs.foldl min a ∈ xs := by
  induction xs generalizing a with
  | nil => exact Or.inl rfl
  | cons y ys ih =>
    rcases ih (min a y) with h | h
    · rcases min_choice a y with hm | hm
      · exact Or.inl (by rw [List.foldl_cons, h, hm])
      · refine Or.inr ?_
        rw [List.foldl_cons, h, hm]
        exact List.mem_cons_self y ys
    · exact Or.inr (List.mem_cons_of_mem y h)

theorem dataMaxQ_spec (x0 : ℚ) (xs : List ℚ) :
    dataMaxQ (x0 :: xs) ∈ x0 :: xs ∧ ∀ x ∈ x0 :: xs, x ≤ dataMaxQ (x0 :: xs) := by
  constructor
  · rcases foldl_max_mem x0 xs with h | h
    · rw [dataMaxQ, h]
      exact List.mem_cons_self x0 xs
    · exact List.mem_cons_of_mem x0 h
  · intro x hx
    rcases List.mem_cons.mp hx with rfl | hx2
    · exact (foldl_max_bounds x xs).1
    · exact (foldl_max_bounds x0 xs).2 x hx2

theorem dataMinQ_spec (x0 : ℚ) (xs : List ℚ) :
    dataMinQ (x0 :: xs) ∈ x0 :: xs ∧ ∀ x ∈ x0 :: xs, dataMinQ (x0 :: xs) ≤ x := by
  constructor
  · rcases foldl_min_mem x0 xs with h | h
    · rw [dataMinQ, h]
      exact List.mem_cons_self x0 xs
    · exact List.mem_cons_of_mem x0 h
  · intro x hx
    rcases List.mem_cons.mp hx with rfl | hx2
    · exact (foldl_min_bounds x xs).1
    · exact (foldl_min_bounds x0 xs).2 x hx2

/-- **C7.** For a non-empty Float column (with non-degenerate range — a zero
range produces NaNs in f64, outside the `ℚ` model), Scale derives its input
domain from the data's own observed minimum and maximum (first two
conjuncts: they are genuine extrema attained by the data); every value maps
to `(1-α)·lo + α·hi` with `α = (x-min)/(max-min)`, where `(lo, hi)` is
`(min_value, max_value)` when either bound was customized and `(0, 1)`
otherwise — the configured bounds appear only as the affine output
endpoints, never as an input clamp; and in the default case every output
lies in `[0, 1]`. -/
theorem c7_scale_domain_from_data (cfg : ScaleConfig) (x0 : ℚ) (xs : List ℚ)
    (hr : dataMinQ (x0 :: xs) ≠ dataMaxQ (x0 :: xs)) :
    (dataMinQ (x0 :: xs) ∈ x0 :: xs ∧ ∀ x ∈ x0 :: xs, dataMinQ (x0 :: xs) ≤ x) ∧
      (dataMaxQ (x0 :: xs) ∈ x0 :: xs ∧ ∀ x ∈ x0 :: xs, x ≤ dataMaxQ (x0 :: xs)) ∧
      scale_transform cfg (x0 :: xs) = (x0 :: xs).map (fun v =>
        (1 - (v - dataMinQ (x0 :: xs)) /
            (dataMaxQ (x0 :: xs) - dataMinQ (x0 :: xs))) *
            (if cfg.hasCustomMinmax then cfg.minValue else 0) +
          ((v - dataMinQ (x0 :: xs)) / (dataMaxQ (x0 :: xs) - dataMinQ (x0 :: xs))) *
            (if cfg.hasCustomMinmax then cfg.maxValue else 1)) ∧
      (cfg.hasCustomMinmax = false →
        ∀ y ∈ scale_transform cfg (x0 :: xs), 0 ≤ y ∧ y ≤ 1) := by
  have hminmax : dataMinQ (x0 :: xs) < dataMaxQ (x0 :: xs) := by
    have h1 := (dataMinQ_spec x0 xs).2 _ (dataMaxQ_spec x0 xs).1
    exact lt_of_le_of_ne h1 hr
  have hrange : 0 < dataMaxQ (x0 :: xs) - dataMinQ (x0 :: xs) := by linarith
  refine ⟨dataMinQ_spec x0 xs, dataMaxQ_spec x0 xs, ?_, ?_⟩
  · unfold scale_transform
    cases hcm : cfg.hasCustomMinmax with
    | true =>
      simp only [if_true, if_pos]
    | false =>
      simp only [Bool.false_eq_true, if_false]
      rw [List.map_eq_map_iff]
      intro v _
      ring
  · intro hcm y hy
    unfold scale_transform at hy
    rw [hcm] at hy
    simp only [Bool.false_eq_true, if_false] at hy
    obtain ⟨v, hv, hyv⟩ := List.mem_map.mp hy
    subst hyv
    constructor
    · apply div_nonneg _ (le_of_lt hrange)
      have := (dataMinQ_spec x0 xs).2 v hv
      linarith
    · rw [div_le_one hrange]
      have := (dataMaxQ_spec x0 xs).2 v hv
      linarith
/-- Witness for C7 at the spec's scenario column `[1,2,3,4,5]` with the
default configuration: the observed minimum is attained and the scaled
output is `[0, 0.25, 0.5, 0.75, 1.0]`. -/
theorem c7_witness :
    dataMinQ [(1 : ℚ), 2, 3, 4, 5] ≠ dataMaxQ [(1 : ℚ), 2, 3, 4, 5] ∧
      dataMinQ [(1 : ℚ), 2, 3, 4, 5] ∈ [(1 : ℚ), 2, 3, 4, 5] ∧
      (∀ y ∈ scale_transform ⟨none, none⟩ [(1 : ℚ), 2, 3, 4, 5], 0 ≤ y ∧ y ≤ 1) ∧
      scale_transform ⟨none, none⟩ [(1 : ℚ), 2, 3, 4, 5] =
        [0, 1 / 4, 1 / 2, 3 / 4, 1] := by
  have hmin : dataMinQ [(1 : ℚ), 2, 3, 4, 5] = 1 := by
    norm_num [dataMinQ, List.foldl_cons, List.foldl_nil, min_def]
  have hmax : dataMaxQ [(1 : ℚ), 2, 3, 4, 5] = 5 := by
    norm_num [dataMaxQ, List.foldl_cons, List.foldl_nil, max_def]
  have hr : dataMinQ [(1 : ℚ), 2, 3, 4, 5] ≠ dataMaxQ [(1 : ℚ), 2, 3, 4, 5] := by
    rw [hmin, hmax]
    norm_num
  have h := c7_scale_domain_from_data ⟨none, none⟩ 1 [2, 3, 4, 5] hr
  refine ⟨hr, h.1.1, h.2.2.2 rfl, ?_⟩
  rw [h.2.2.1]
  rw [hmin, hmax]
  norm_num [ScaleConfig.hasCustomMinmax]
/-! ## C8: Match/MatchNot filter semantics -/

/-- A populated typed match target (claim-side view of `MatchConfig`). -/
inductive TargetVal where
  | text (s : String)
  | signed (i : Int)
  | unsigned (u : Nat)
  | boolean (b : Bool)
  | float (q : ℚ)
deriving DecidableEq, Repr

/-- The filter's configured type/value: the first populated field in the
order the code checks them (`text`, `signed`, `unsigned`, `boolean`,
`float`); `none` when no field is populated. -/
def MatchConfig.configuredTarget (c : MatchConfig) : Option TargetVal :=
  match c.text with
  | some s => some (.text s)
  | none =>
    match c.signed with
    | some i => some (.signed i)
    | none =>
      match c.unsigned with
      | some u => some (.unsigned u)
      | none =>
        match c.boolean with
        | some b => some (.boolean b)
        | none =>
          match c.float with
          | some q => some (.float q)
          | none => none

/-- The claim's reading of a match: parse the raw cell as the configured
type (text compares directly) and compare for equality; a parse failure is
an error. -/
def spec_match (t : TargetVal) (raw : String) : Except EtlError Bool :=
  match t with
  | .text s => .ok (s = raw)
  | .signed i =>
    match parseI64 raw with
    | some v => .ok (i = v)
    | none => .error (.parse "signed integer parse error")
  | .unsigned u =>
    match parseU64 raw with
    | some v => .ok (u = v)
    | none => .error (.parse "unsigned integer parse error")
  | .boolean b =>
    match parseBool raw with
    | some v => .ok (b = v)
    | none => .error (.parse "boolean parse error")
  | .float q =>
    match parseF64 raw with
    | some v => .ok (q = v)
    | none => .error (.parse "float parse error")

/-- Whether the raw cell fails to parse as the target's type. -/
def target_parse_fails (t : TargetVal) (raw : String) : Prop :=
  match t with
  | .text _ => False
  | .signed _ => parseI64 raw = none
  | .unsigned _ => parseU64 raw = none
  | .boolean _ => parseBool raw = none
  | .float _ => parseF64 raw = none
theorem does_match_eq_spec (c : MatchConfig) (raw : String) :
    c.does_match raw =
      (match c.configuredTarget with
       | none => .error (.dataConfig "missing match value")
       | some t => spec_match t raw) := by
  obtain ⟨ct, cs, cu, cb, cf⟩ := c
  cases ct <;> cases cs <;> cases cu <;> cases cb <;> cases cf <;> rfl

/-- **C8.** `Match` parses the raw cell as the filter's configured type and
compares for equality, `MatchNot` negates that result; a parse failure
propagates as an error — in particular it is never reported as a non-match
`ok b` — and a config with no populated target value yields the
`missing match value` configuration error. -/
theorem c8_match_filter_semantics (c : MatchConfig) (raw : String) :
    (c.configuredTarget = none →
      FilterMethod.apply (.Match c) raw = .error (.dataConfig "missing match value") ∧
        FilterMethod.apply (.MatchNot c) raw =
          .error (.dataConfig "missing match value")) ∧
      (∀ t, c.configuredTarget = some t →
        FilterMethod.apply (.Match c) raw = spec_match t raw ∧
          FilterMethod.apply (.MatchNot c) raw = (spec_match t raw).map (fun b => !b)) ∧
      (∀ t, c.configuredTarget = some t → target_parse_fails t raw →
        ∀ b, FilterMethod.apply (.Match c) raw ≠ .ok b ∧
          FilterMethod.apply (.MatchNot c) raw ≠ .ok b) := by
  have happly : FilterMethod.apply (.Match c) raw = c.does_match raw := rfl
  have happly2 : FilterMethod.apply (.MatchNot c) raw =
      (c.does_match raw).map (fun b => !b) := rfl
  refine ⟨?_, ?_, ?_⟩
  · intro hnone
    rw [happly, happly2, does_match_eq_spec, hnone]
    exact ⟨rfl, rfl⟩
  · intro t ht
    rw [happly, happly2, does_match_eq_spec, ht]
    exact ⟨rfl, rfl⟩
  · intro t ht hfail b
    rw [happly, happly2, does_match_eq_spec, ht]
    cases t <;> unfold target_parse_fails at hfail
    · exact hfail.elim
    · show (spec_match _ raw ≠ _) ∧ ((spec_match _ raw).map _ ≠ _)
      unfold spec_match
      rw [hfail]
      exact ⟨by simp, by simp [Except.map]⟩
    · show (spec_match _ raw ≠ _) ∧ ((spec_match _ raw).map _ ≠ _)
      unfold spec_match
      rw [hfail]
      exact ⟨by simp, by simp [Except.map]⟩
    · show (spec_match _ raw ≠ _) ∧ ((spec_match _ raw).map _ ≠ _)
      unfold spec_match
      rw [hfail]
      exact ⟨by simp, by simp [Except.map]⟩
    · show (spec_match _ raw ≠ _) ∧ ((spec_match _ raw).map _ ≠ _)
      unfold spec_match
      rw [hfail]
      exact ⟨by simp, by simp [Except.map]⟩

/-- Witness for C8: a signed match target `4` against the unparsable cell
`"abc"` produces the parse error (never `ok false`), and the all-unpopulated
config produces the configuration error. -/
theorem c8_witness :
    FilterMethod.apply (.Match ⟨none, some 4, none, none, none⟩) "abc" =
        .error (.parse "signed integer parse error") ∧
      FilterMethod.apply (.MatchNot ⟨none, some 4, none, none, none⟩) "abc" ≠
        .ok false ∧
      FilterMethod.apply (.Match ⟨none, none, none, none, none⟩) "abc" =
        .error (.dataConfig "missing match value") := by
  refine ⟨?_, ?_, ?_⟩
  · have h := ((c8_match_filter_semantics ⟨none, some 4, none, none, none⟩ "abc").2.1
      (.signed 4) rfl).1
    rw [h]
    rfl
  · exact (((c8_match_filter_semantics ⟨none, some 4, none, none, none⟩ "abc").2.2
      (.signed 4) rfl (by show parseI64 "abc" = none; decide)) false).2
  · exact ((c8_match_filter_semantics ⟨none, none, none, none, none⟩ "abc").1 rfl).1
/-! ## C4: worklist resolution -/

theorem sourcesReady_of_mem (avail : List String) (t : TransformNode)
    (h : ∀ s ∈ t.source_fields, s ∈ avail) : sourcesReady avail t = true := by
  unfold sourcesReady
  rw [List.all_eq_true]
  intro s hs
  exact List.elem_eq_true_of_mem (h s hs)

theorem worklistPass_sublist (avail : List String) (ts : List TransformNode) :
    ((worklistPass avail ts).2).Sublist ts := by
  induction ts generalizing avail with
  | nil => simp [worklistPass]
  | cons t rest ih =>
    unfold worklistPass
    by_cases hready : sourcesReady avail t
    · rw [if_pos hready]
      exact (ih (avail ++ t.generated_names)).cons t
    · rw [if_neg hready]
      cases hw : worklistPass avail rest with
      | mk a1 p1 =>
        show (t :: p1).Sublist (t :: rest)
        have hsub := ih avail
        rw [hw] at hsub
        exact hsub.cons₂ t

theorem worklistPass_no_progress (avail : List String) (ts : List TransformNode)
    (h : ((worklistPass avail ts).2).length = ts.length) :
    (worklistPass avail ts).2 = ts :=
  (worklistPass_sublist avail ts).eq_of_length h

/-- **C4.** The fixed-point worklist resolver: (1) a 2-hop chain — `t2`
consuming `t1`'s generated output, `t1` drawing on the raw store — resolves
in either input order; (2)–(3) a full pass with zero progress while
transforms remain pending aborts with a `DependencyError` carrying *every*
still-pending transform's target, at any loop state and from the initial
state. -/
theorem c4_worklist_resolution :
    (∀ (raw : List String) (t1 t2 : TransformNode),
      (∀ s ∈ t1.source_fields, s ∈ raw) →
      (∀ s ∈ t2.source_fields, s ∈ raw ∨ s ∈ t1.generated_names) →
      (resolve_transforms raw [t1, t2]).isOk = true ∧
        (resolve_transforms raw [t2, t1]).isOk = true) ∧
      (∀ (fuel : Nat) (avail : List String) (pending : List TransformNode),
        pending ≠ [] →
        ((worklistPass avail pending).2).length = pending.length →
        worklistLoop (fuel + 1) avail pending =
          .error (pending.map (fun t => t.target_name))) ∧
      (∀ (raw : List String) (ts : List TransformNode),
        ts ≠ [] →
        ((worklistPass raw ts).2).length = ts.length →
        resolve_transforms raw ts = .error (ts.map (fun t => t.target_name))) := by
  have hstuck : ∀ (fuel : Nat) (avail : List String) (pending : List TransformNode),
      pending ≠ [] →
      ((worklistPass avail pending).2).length = pending.length →
      worklistLoop (fuel + 1) avail pending =
        .error (pending.map (fun t => t.target_name)) := by
    intro fuel avail pending hne hnp
    have hp := worklistPass_no_progress avail pending hnp
    unfold worklistLoop
    rw [if_neg (by simpa [List.isEmpty_iff] using hne)]
    cases hw : worklistPass avail pending with
    | mk a1 p1 =>
      have hp1 : p1 = pending := by
        rw [hw] at hp
        exact hp
      show (if p1.length = pending.length then
          Except.error (List.map (fun t => t.target_name) p1)
        else worklistLoop fuel a1 p1) =
          Except.error (List.map (fun t => t.target_name) pending)
      rw [hp1, if_pos rfl]
  refine ⟨?_, hstuck, ?_⟩
  · intro raw t1 t2 h1 h2
    have hr1 : sourcesReady raw t1 = true :=
      sourcesReady_of_mem raw t1 h1
    have hr1app : ∀ ext : List String, sourcesReady (raw ++ ext) t1 = true := fun ext =>
      sourcesReady_of_mem (raw ++ ext) t1 (fun s hs => List.mem_append_left ext (h1 s hs))
    have hr2app : sourcesReady (raw ++ t1.generated_names) t2 = true := by
      refine sourcesReady_of_mem _ t2 (fun s hs => List.mem_append.mpr ?_)
      exact h2 s hs
    constructor
    · have hp : worklistPass raw [t1, t2] =
          ((raw ++ t1.generated_names) ++ t2.generated_names, []) := by
        simp [worklistPass, hr1, hr2app]
      simp [resolve_transforms, worklistLoop, hp, Except.isOk, Except.toBool]
    · by_cases hr2 : sourcesReady raw t2 = true
      · have hp : worklistPass raw [t2, t1] =
            ((raw ++ t2.generated_names) ++ t1.generated_names, []) := by
          simp [worklistPass, hr2, hr1app t2.generated_names]
        simp [resolve_transforms, worklistLoop, hp, Except.isOk, Except.toBool]
      · have hp : worklistPass raw [t2, t1] = (raw ++ t1.generated_names, [t2]) := by
          simp [worklistPass, hr1, hr2]
        have hp2 : worklistPass (raw ++ t1.generated_names) [t2] =
            ((raw ++ t1.generated_names) ++ t2.generated_names, []) := by
          simp [worklistPass, hr2app]
        simp [resolve_transforms, worklistLoop, hp, hp2, Except.isOk, Except.toBool]
  · intro raw ts hne hnp
    obtain ⟨n, hn⟩ := Nat.exists_eq_succ_of_ne_zero
      (fun h0 => hne (List.length_eq_zero.mp h0))
    unfold resolve_transforms
    rw [hn]
    exact hstuck n raw ts hne hnp
/-- Witness for C4: the concrete 2-hop chain `t1 : a → t1`, `t2 : t1 → t2`
resolves in both input orders, and a transform whose source never appears is
reported by target name. -/
theorem c4_witness :
    (resolve_transforms ["a"] [⟨["a"], "t1", ["t1"]⟩, ⟨["t1"], "t2", ["t2"]⟩]).isOk = true ∧
      (resolve_transforms ["a"] [⟨["t1"], "t2", ["t2"]⟩, ⟨["a"], "t1", ["t1"]⟩]).isOk
        = true ∧
      resolve_transforms ["a"] [⟨["missing"], "t3", ["t3"]⟩] = .error ["t3"] := by
  have h2hop := c4_worklist_resolution.1 ["a"] ⟨["a"], "t1", ["t1"]⟩ ⟨["t1"], "t2", ["t2"]⟩
    (by decide) (by decide)
  exact ⟨h2hop.1, h2hop.2,
    c4_worklist_resolution.2.2 ["a"] [⟨["missing"], "t3", ["t3"]⟩] (by decide) (by decide)⟩
/-! ## C6: filters gate row ingestion atomically -/

/-- The spec scenario's filter: `Inequality Gte 4` on field `c` (signed). -/
def c6Filter : Filter :=
  ⟨"c", .Inequality ⟨.Gte, some 4, none, none⟩⟩

/-- The spec scenario's single bound field: signed `c` at row index 0, with
`c6Filter` bound to it. -/
def c6Bound : List BoundField :=
  [⟨⟨0, "c", .Signed⟩, some c6Filter⟩]

/-- The spec scenario's data rows: `c` = 3, 5, 6. -/
def c6Rows : List (List String) :=
  [["3"], ["5"], ["6"]]

/-- **C6.** Every bound filter is evaluated on the row's decoded values
before any field is committed: a row some filter rejects is skipped
atomically, leaving the store exactly as it was (no partial insert), and a
row all filters accept has all its bound fields inserted. On the spec's
scenario — `c` = [3,5,6] filtered by `Inequality Gte 4` — the loaded store
contains exactly the rows [5,6]. -/
theorem c6_filter_row_atomicity :
    (∀ (bound : List BoundField) (row : List String) (ds : DataStore),
      row_filters_pass bound row = .ok false →
      process_row bound row ds = .ok ds) ∧
      (∀ (bound : List BoundField) (row : List String) (ds : DataStore),
        row_filters_pass bound row = .ok true →
        process_row bound row ds = insert_row_fields bound row ds) ∧
      (extract_data c6Bound c6Rows).map (fun st => bktGet st.signed "c") =
        .ok (some [5, 6]) := by
  refine ⟨?_, ?_, by decide⟩
  · intro bound row ds h
    unfold process_row
    rw [h]
  · intro bound row ds h
    unfold process_row
    rw [h]

/-- Witness for C6: the rejected first scenario row (`c = 3`) leaves the
empty store untouched; the accepted second row (`c = 5`) is inserted. -/
theorem c6_witness :
    row_filters_pass c6Bound ["3"] = .ok false ∧
      process_row c6Bound ["3"] DataStore.empty = .ok DataStore.empty ∧
      row_filters_pass c6Bound ["5"] = .ok true ∧
      process_row c6Bound ["5"] DataStore.empty =
        insert_row_fields c6Bound ["5"] DataStore.empty := by
  refine ⟨by decide, ?_, by decide, ?_⟩
  · exact c6_filter_row_atomicity.1 c6Bound ["3"] DataStore.empty (by decide)
  · exact c6_filter_row_atomicity.2.1 c6Bound ["5"] DataStore.empty (by decide)

end Etl
